import Mathlib

/-!
Verification of the docker-notify-ts update checker.

The development shallowly embeds the TypeScript sources (src/index.ts,
src/dockerApi.ts, src/cache.ts, src/actions/*.ts, src/schema.ts) in Lean.
JavaScript strings are modelled as lists of characters (`JStr`); external
effects (HTTP responses, the filesystem, SMTP) are passed in explicitly as
values or response functions, and JavaScript exceptions are modelled with
`Except`.  Semantics of the JavaScript runtime primitives the code relies on
(String.prototype.split, String.prototype.replace with a string pattern,
Date.parse comparison with NaN, JSON.parse / JSON.stringify) are modelled by
executable Lean functions defined below.
-/

namespace DockerNotify

/-- JavaScript strings, modelled as lists of characters. -/
abbrev JStr := List Char

/-- Model of JavaScript String.prototype.split with a single-character
separator: splits the receiver at every occurrence of the separator,
returning the (possibly empty) pieces in order; the empty string splits to
a single empty piece, as in JavaScript. -/
def splitOnChar (c : Char) : JStr → List JStr
  | [] => [[]]
  | ch :: rest =>
    let r := splitOnChar c rest
    if ch = c then [] :: r
    else
      match r with
      | h :: t => (ch :: h) :: t
      | [] => [[ch]]

/-- Whether the second list is an initial segment of the first. -/
def leadsWith : JStr → JStr → Bool
  | _, [] => true
  | [], _ :: _ => false
  | a :: as, b :: bs => a = b && leadsWith as bs

/-- Model of JavaScript String.prototype.replace with a string (not regexp)
pattern: only the first occurrence of the pattern is replaced.  The
replacement string is inserted literally. -/
def jsReplaceFirst (pat rep : JStr) : JStr → JStr
  | [] => if pat.isEmpty then rep else []
  | c :: rest =>
    if leadsWith (c :: rest) pat then rep ++ (c :: rest).drop pat.length
    else c :: jsReplaceFirst pat rep rest

/-- Index of the first occurrence of a pattern in a string, if any (the
search order performed by String.prototype.replace). -/
def firstMatchIdx (pat : JStr) : JStr → Option Nat
  | [] => if pat.isEmpty then some 0 else none
  | c :: rest =>
    if leadsWith (c :: rest) pat then some 0
    else (firstMatchIdx pat rest).map (· + 1)

/-- The pattern occurs in `s` starting at index `j`. -/
def OccursAt (pat s : JStr) (j : Nat) : Prop :=
  (s.drop j).take pat.length = pat ∧ j + pat.length ≤ s.length

/-- Parsed form of a configured image string (schema.ts, ParsedImage). -/
structure ParsedImage where
  user : JStr
  name : JStr
  tag : Option JStr
deriving DecidableEq

/-- Embedding of parseImageString (index.ts): split on '/', take the first
segment as the user (defaulting to "library" when there is only one
segment), split the second segment on ':' into name and optional tag. -/
def parseImageString (imageString : JStr) : ParsedImage :=
  let parts := splitOnChar '/' imageString
  let user := if parts.length > 1 then parts.headD [] else "library".data
  let nameWithTag := if parts.length > 1 then parts.getD 1 [] else parts.headD []
  let tagParts := splitOnChar ':' nameWithTag
  let name := tagParts.headD []
  let tag := if tagParts.length > 1 then some (tagParts.getD 1 []) else none
  { user := user, name := name, tag := tag }

/-- Embedding of getCacheKey (index.ts): `user/name` with `:tag` appended
when a tag is present. -/
def getCacheKey (image : ParsedImage) : JStr :=
  image.user ++ '/' :: image.name ++
    (match image.tag with
     | some t => ':' :: t
     | none => [])

theorem splitOnChar_ne_nil (c : Char) (s : JStr) : splitOnChar c s ≠ [] := by
  cases s with
  | nil => simp [splitOnChar]
  | cons ch rest =>
    simp only [splitOnChar]
    split
    · simp
    · match h : splitOnChar c rest with
      | h' :: t => simp
      | [] => simp

theorem splitOnChar_no_sep (c : Char) (p : JStr) (h : c ∉ p) :
    splitOnChar c p = [p] := by
  induction p with
  | nil => rfl
  | cons ch rest ih =>
    simp only [List.mem_cons, not_or] at h
    simp only [splitOnChar, ih h.2]
    rw [if_neg (show ¬ ch = c from fun hc => h.1 hc.symm)]

theorem splitOnChar_append (c : Char) (p s : JStr) (h : c ∉ p) :
    splitOnChar c (p ++ c :: s) = p :: splitOnChar c s := by
  induction p with
  | nil => simp [splitOnChar]
  | cons ch rest ih =>
    simp only [List.mem_cons, not_or] at h
    simp only [List.cons_append, splitOnChar, List.append_eq, ih h.2]
    rw [if_neg (show ¬ ch = c from fun hc => h.1 hc.symm)]

/-- Actions as seen by the action registry (schema.ts Action; the registry
in actions/index.ts looks handlers up by the string `type` field, so the
type is kept as a string here).  The recipient field is only present on
mail actions. -/
structure Action where
  ty : JStr
  instName : JStr
  recipient : Option JStr
deriving DecidableEq

/-- NotifyService (schema.ts): a raw configured image string plus its
actions. -/
structure NotifyService where
  image : JStr
  actions : List Action
deriving DecidableEq

/-- ParsedNotifyService (schema.ts): a NotifyService whose image string has
been parsed, keeping the original string. -/
structure ParsedNotifyService where
  image : ParsedImage
  actions : List Action
  originalImage : JStr
deriving DecidableEq

/-- Embedding of parseNotifyServices (index.ts). -/
def parseNotifyServices (services : List NotifyService) : List ParsedNotifyService :=
  services.map fun service =>
    { image := parseImageString service.image
      actions := service.actions
      originalImage := service.image }

/-- CacheEntry (schema.ts): one persisted state entry. -/
structure CacheEntry where
  user : JStr
  name : JStr
  lastUpdated : JStr
  tag : Option JStr
deriving DecidableEq

/-- Model of the JavaScript comparison `a < b` applied to two Date.parse
results, where `none` stands for NaN: any comparison against NaN is false. -/
def jsDateLt (a b : Option Int) : Bool :=
  match a, b with
  | some x, some y => decide (x < y)
  | _, _ => false

/-- Embedding of the update comparison in checkRepository (index.ts line
132): `cacheEntry ? Date.parse(cacheEntry.lastUpdated) < Date.parse(lastUpdated) : false`.
Date.parse itself is external; it is passed in as a function returning
  `none` for NaN (a malformed timestamp). -/
def computeUpdated (parseDate : JStr → Option Int) (cacheEntry : Option CacheEntry)
    (lastUpdated : JStr) : Bool :=
  match cacheEntry with
  | some e => jsDateLt (parseDate e.lastUpdated) (parseDate lastUpdated)
  | none => false

/-- Errors thrown by the got HTTP client: an HTTPError carrying the response
status for a non-2xx response, or a RequestError for a transport failure. -/
inductive JsError where
  | httpError (status : Nat)
  | requestError
deriving DecidableEq

/-- Raw outcome of one HTTP request as seen by the got client. -/
inductive HttpResponse (α : Type) where
  | success (body : α)
  | failureStatus (status : Nat)
  | networkFailure
deriving DecidableEq

/-- Modelled from the got client's contract (external dependency): a 2xx
response fulfills with the parsed JSON body; a non-2xx response (404
included) rejects with an HTTPError carrying the status code; a transport
failure rejects with a RequestError. -/
def gotJson {α : Type} : HttpResponse α → Except JsError α
  | .success b => .ok b
  | .failureStatus s => .error (.httpError s)
  | .networkFailure => .error .requestError

/-- Embedding of DockerAPI.makeRequest (dockerApi.ts): performs the got
request; on failure logs and rethrows the same error. -/
def makeRequest {α : Type} (response : HttpResponse α) : Except JsError α :=
  match gotJson response with
  | .ok v => .ok v
  | .error e => .error e

/-- TagInfo (dockerApi.ts). -/
structure TagInfo where
  name : JStr
  last_updated : JStr
deriving DecidableEq

/-- TagsResponse (dockerApi.ts): one page of the tags endpoint. -/
structure TagsResponse where
  count : Nat
  results : List TagInfo
deriving DecidableEq

/-- RepositoryInfo (dockerApi.ts). -/
structure RepositoryInfo where
  user : JStr
  name : JStr
  last_updated : JStr
deriving DecidableEq

/-- PAGE_SIZE constant (dockerApi.ts). -/
def PAGE_SIZE : Nat := 100

/-- Model of Promise.all over already-created promises: fulfills with the
list of values when every promise fulfills, rejects as soon as any promise
rejects. -/
def promiseAll {α : Type} : List (Except JsError α) → Except JsError (List α)
  | [] => .ok []
  | .error e :: _ => .error e
  | .ok v :: rest => (promiseAll rest).map (v :: ·)

/-- Embedding of DockerAPI.requestAllPages (dockerApi.ts): request page 1,
compute `maxPage = ceil(count / PAGE_SIZE)`; when `maxPage ≤ 1` return the
first page's results, otherwise request pages 2..maxPage concurrently and
concatenate every page's results in page order.  `fetchPage` gives the raw
HTTP outcome of the request for each page number; the first component of
the result is the list of page numbers requested, in order. -/
def requestAllPages (fetchPage : Nat → HttpResponse TagsResponse) :
    List Nat × Except JsError (List TagInfo) :=
  match makeRequest (fetchPage 1) with
  | .error e => ([1], .error e)
  | .ok firstPageResult =>
    let totalCount := firstPageResult.count
    let maxPage := (totalCount + (PAGE_SIZE - 1)) / PAGE_SIZE
    if maxPage ≤ 1 then ([1], .ok firstPageResult.results)
    else
      let pages := List.range' 2 (maxPage - 1)
      match promiseAll (pages.map fun page => makeRequest (fetchPage page)) with
      | .error e => (1 :: pages, .error e)
      | .ok subsequentResults =>
        (1 :: pages, .ok (((firstPageResult :: subsequentResults).map (·.results)).flatten))

/-- Embedding of DockerAPI.getRepository (dockerApi.ts): a single
makeRequest.  The body is an Option because got's `.json<T>()` is an
unchecked cast, so a 2xx response whose body is the JSON value null
fulfills with null. -/
def getRepository (response : HttpResponse (Option RepositoryInfo)) :
    Except JsError (Option RepositoryInfo) :=
  makeRequest response

/-- External responses of the Docker Hub API for one check cycle: the raw
HTTP outcome of the tags request per (user, name, page), and of the
repository request per (user, name). -/
structure DockerHubEnv where
  tagsPage : JStr → JStr → Nat → HttpResponse TagsResponse
  repoResponse : JStr → JStr → HttpResponse (Option RepositoryInfo)

/-- RepositoryCheckResult (schema.ts). -/
structure RepositoryCheckResult where
  lastUpdated : JStr
  name : JStr
  user : JStr
  tag : Option JStr
  updated : Bool
  job : ParsedNotifyService
deriving DecidableEq

/-- The result object literal built at the end of checkRepository
(index.ts lines 134-141). -/
def mkCheckResult (parseDate : JStr → Option Int) (job : ParsedNotifyService)
    (cacheEntry : Option CacheEntry) (lastUpdated : JStr) : RepositoryCheckResult :=
  { lastUpdated := lastUpdated
    name := job.image.name
    user := job.image.user
    tag := job.image.tag
    updated := computeUpdated parseDate cacheEntry lastUpdated
    job := job }

/-- Which log line checkRepository emits on its way out. -/
inductive CheckRepoLog where
  | success
  | tagNotFound
  | repoNotFound
  | checkFailed
deriving DecidableEq

/-- Embedding of checkRepository (index.ts): for a tagged image fetch all
tags and look the tag up (a missing tag is an error for this image only);
for an untagged image fetch the repository metadata.  A thrown error is
caught and turned into a null result.  The second component records which
log line the function emitted. -/
def checkRepository (env : DockerHubEnv) (parseDate : JStr → Option Int)
    (job : ParsedNotifyService) (cacheEntry : Option CacheEntry) :
    Option RepositoryCheckResult × CheckRepoLog :=
  match job.image.tag with
  | some tag =>
    match (requestAllPages (env.tagsPage job.image.user job.image.name)).2 with
    | .error _ => (none, .checkFailed)
    | .ok tags =>
      match tags.find? (fun t => t.name == tag) with
      | none => (none, .tagNotFound)
      | some tagInfo =>
        (some (mkCheckResult parseDate job cacheEntry tagInfo.last_updated), .success)
  | none =>
    match getRepository (env.repoResponse job.image.user job.image.name) with
    | .error _ => (none, .checkFailed)
    | .ok none => (none, .repoNotFound)
    | .ok (some repoInfo) =>
      (some (mkCheckResult parseDate job cacheEntry repoInfo.last_updated), .success)

/-- Lookup in a JavaScript object modelled as an association list. -/
def objLookup {α : Type} : List (JStr × α) → JStr → Option α
  | [], _ => none
  | (k', v) :: rest, k => if k' = k then some v else objLookup rest k

/-- Assignment to a JavaScript object key: overwrites an existing entry in
place, otherwise appends the new entry (JavaScript objects keep insertion
order). -/
def objInsert {α : Type} : List (JStr × α) → JStr → α → List (JStr × α)
  | [], k, v => [(k, v)]
  | (k', v') :: rest, k, v =>
    if k' = k then (k, v) :: rest else (k', v') :: objInsert rest k v

/-- The new-cache entry built from a check result inside checkForUpdates
(index.ts lines 182-187); the tag key is present exactly when the result
has a tag. -/
def entryOfResult (r : RepositoryCheckResult) : CacheEntry :=
  { user := r.user, name := r.name, lastUpdated := r.lastUpdated, tag := r.tag }

/-- Embedding of the per-cycle core of checkForUpdates (index.ts lines
161-202): check every service against the loaded cache, keep the non-null
results, build the new cache object from scratch from those results, and
collect the results flagged as updated (in order) for notification. -/
def runCheckCycle (env : DockerHubEnv) (parseDate : JStr → Option Int)
    (currentCache : List (JStr × CacheEntry)) (services : List ParsedNotifyService) :
    List (JStr × CacheEntry) × List RepositoryCheckResult :=
  let results := services.map fun service =>
    (checkRepository env parseDate service (objLookup currentCache (getCacheKey service.image))).1
  let validResults := results.filterMap id
  let newCache := validResults.foldl
    (fun m r => objInsert m (getCacheKey r.job.image) (entryOfResult r)) []
  (newCache, validResults.filter (·.updated))

/-- JSON values (used for webhook bodies and for the persisted cache file).
Numbers are kept as their literal digit strings, since no code under
verification computes with them. -/
inductive JsonValue where
  | str (s : JStr)
  | numLit (digits : JStr)
  | boolean (b : Bool)
  | null
  | arr (items : List JsonValue)
  | obj (fields : List (JStr × JsonValue))

/-- The httpBody field of a WebhookConfig (schema.ts): a JSON object, a
JSON array, a string, null, or absent. -/
inductive HttpBody where
  | undef
  | null
  | str (s : JStr)
  | arr (items : List JsonValue)
  | obj (fields : List (JStr × JsonValue))

/-- HTTP methods accepted by the schema. -/
inductive HttpMethod where
  | post
  | get
  | put
  | delete
deriving DecidableEq

/-- WebhookConfig (schema.ts). -/
structure WebhookConfig where
  reqUrl : JStr
  httpMethod : HttpMethod
  httpHeaders : JsonValue
  httpBody : HttpBody

/-- SmtpServerConfig (schema.ts). -/
structure SmtpServerConfig where
  host : JStr
  port : Nat
  secure : Bool
  sendername : JStr
  senderadress : JStr
  username : Option JStr
  password : Option JStr
deriving DecidableEq

/-- Config (schema.ts): the parsed configuration.  The optional smtpServer
and webHooks records are modelled as association lists. -/
structure Config where
  dockerHubUsername : Option JStr
  dockerHubPassword : Option JStr
  checkInterval : Nat
  notifyServices : List NotifyService
  smtpServer : Option (List (JStr × SmtpServerConfig))
  webHooks : Option (List (JStr × WebhookConfig))

/-- The `$msg` placeholder searched for by the webhook handler. -/
def msgPat : JStr := "$msg".data

/-- Embedding of replaceMessagePlaceholders (actions/webhook.ts): identity
on null/absent bodies; on a string body replace `$msg` in it; on an array
body replace `$msg` in every string element, leaving other elements
untouched; on an object body replace `$msg` in every top-level string
value, leaving other values untouched. -/
def replaceMessagePlaceholders (body : HttpBody) (message : JStr) : HttpBody :=
  match body with
  | .undef => .undef
  | .null => .null
  | .str s => .str (jsReplaceFirst msgPat message s)
  | .arr items =>
    .arr (items.map fun item =>
      match item with
      | .str s => .str (jsReplaceFirst msgPat message s)
      | other => other)
  | .obj fields =>
    .obj (fields.map fun kv =>
      match kv.2 with
      | .str s => (kv.1, .str (jsReplaceFirst msgPat message s))
      | other => (kv.1, other))

/-- The two handlers registered in the ActionRegistry constructor
(actions/index.ts): mailAction and webhookAction. -/
inductive HandlerKind where
  | mailHook
  | webHook
deriving DecidableEq

/-- Embedding of ActionRegistry.getHandler: lookup in the handler map built
by registering mailAction (type "mailHook") and webhookAction (type
"webHook"). -/
def getHandler (ty : JStr) : Option HandlerKind :=
  if ty = "mailHook".data then some .mailHook
  else if ty = "webHook".data then some .webHook
  else none

/-- Embedding of mailAction.validateInstance (actions/mail.ts): the action
must have type "mailHook" and its instance name must be a key of the
smtpServer record. -/
def mailValidateInstance (action : Action) (config : Config) : Bool :=
  if action.ty ≠ "mailHook".data then false
  else
    match config.smtpServer with
    | none => false
    | some m => (objLookup m action.instName).isSome

/-- Embedding of webhookAction.validateInstance (actions/webhook.ts): the
action must have type "webHook" and its instance name must be a key of the
webHooks record. -/
def webhookValidateInstance (action : Action) (config : Config) : Bool :=
  if action.ty ≠ "webHook".data then false
  else
    match config.webHooks with
    | none => false
    | some m => (objLookup m action.instName).isSome

/-- Dispatch of validateInstance through the handler found by getHandler. -/
def validateInstance : HandlerKind → Action → Config → Bool
  | .mailHook => mailValidateInstance
  | .webHook => webhookValidateInstance

/-- Embedding of ActionRegistry.validateAllActions (actions/index.ts): for
every action of every configured service, a handler must exist for its
type and that handler's validateInstance must accept the action; the
source returns false at the first violation. -/
def validateAllActions (config : Config) : Bool :=
  config.notifyServices.all fun service =>
    service.actions.all fun action =>
      match getHandler action.ty with
      | none => false
      | some handler => validateInstance handler action config

/-- UpdateInfo (schema.ts). -/
structure UpdateInfo where
  imageName : JStr
  imageUrl : JStr
  lastUpdated : JStr
deriving DecidableEq

/-- The notification message built by both handlers
(actions/mail.ts, actions/webhook.ts). -/
def notifyMessage (updateInfo : UpdateInfo) : JStr :=
  "Docker image '".data ++ updateInfo.imageName ++ "' was updated:\n".data ++
    updateInfo.imageUrl

/-- Which log line a handler (or the dispatcher) emitted for one dispatched
action. -/
inductive ExecLog where
  | unknownActionType
  | smtpConfigNotFound
  | mailSent
  | mailFailed
  | webhookConfigNotFound
  | webhookSuccess
  | webhookFailed
deriving DecidableEq

/-- Outcomes of the external SMTP transport calls made inside
mailAction.execute: transporter.verify() and transporter.sendMail(). -/
structure MailWorld where
  verifyOutcome : Except JsError Unit
  sendOutcome : Except JsError JStr

/-- Outcome of the got call made inside webhookAction.execute (the fulfilled
value is the response status code). -/
structure WebhookWorld where
  gotOutcome : Except JsError Nat

/-- Embedding of mailAction.execute (actions/mail.ts): missing SMTP config
is logged and returned; otherwise verify then sendMail inside a try block
whose catch logs the failure.  The result is the error channel of the
returned promise together with the log line emitted. -/
def mailExecute (action : Action) (config : Config) (world : MailWorld) :
    Except JsError ExecLog :=
  match config.smtpServer.bind (fun m => objLookup m action.instName) with
  | none => .ok .smtpConfigNotFound
  | some _ =>
    match (do
        let _ ← world.verifyOutcome
        let _ ← world.sendOutcome
        pure () : Except JsError Unit) with
    | .error _ => .ok .mailFailed
    | .ok _ => .ok .mailSent

/-- Embedding of webhookAction.execute (actions/webhook.ts): missing
webhook config is logged and returned; otherwise the message and body are
built and the got call is made inside a try block whose catch logs the
failure. -/
def webhookExecute (action : Action) (updateInfo : UpdateInfo) (config : Config)
    (world : WebhookWorld) : Except JsError ExecLog :=
  match config.webHooks.bind (fun m => objLookup m action.instName) with
  | none => .ok .webhookConfigNotFound
  | some webhookConfig =>
    let message := notifyMessage updateInfo
    let _body := replaceMessagePlaceholders webhookConfig.httpBody message
    match world.gotOutcome with
    | .error _ => .ok .webhookFailed
    | .ok _ => .ok .webhookSuccess

/-- Embedding of ActionRegistry.executeAction (actions/index.ts): look the
handler up by the action's type; when absent log and return; otherwise
await the handler's execute, propagating anything it throws. -/
def executeAction (action : Action) (updateInfo : UpdateInfo) (config : Config)
    (mailWorld : MailWorld) (webhookWorld : WebhookWorld) : Except JsError ExecLog :=
  match getHandler action.ty with
  | none => .ok .unknownActionType
  | some .mailHook => mailExecute action config mailWorld
  | some .webHook => webhookExecute action updateInfo config webhookWorld

/-- Whitespace characters insignificant between JSON tokens. -/
def isWsChar (c : Char) : Bool :=
  c = ' ' || c = '\n' || c = '\t' || c = '\r'

/-- Drop leading insignificant whitespace. -/
def skipWs : JStr → JStr
  | [] => []
  | c :: rest => if isWsChar c then skipWs rest else c :: rest

/-- Lower-case hexadecimal digit for a value below 16. -/
def hexDigitChar (n : Nat) : Char :=
  if n < 10 then Char.ofNat ('0'.toNat + n) else Char.ofNat ('a'.toNat + (n - 10))

/-- Modelled from JSON.stringify's string escaping: quote, backslash and the
named control escapes get a two-character escape, any other control
character a \u00xx escape, and every other character stands for itself. -/
def escapeChar (c : Char) : JStr :=
  if c = '"' then ['\\', '"']
  else if c = '\\' then ['\\', '\\']
  else if c = '\n' then ['\\', 'n']
  else if c = '\r' then ['\\', 'r']
  else if c = '\t' then ['\\', 't']
  else if c = '\x08' then ['\\', 'b']
  else if c = '\x0c' then ['\\', 'f']
  else if c.toNat < 32 then
    ['\\', 'u', '0', '0', hexDigitChar (c.toNat / 16), hexDigitChar (c.toNat % 16)]
  else [c]

/-- Escape every character of a string. -/
def escapeString : JStr → JStr
  | [] => []
  | c :: rest => escapeChar c ++ escapeString rest

/-- Serialize a string as a quoted JSON string literal. -/
def serializeString (s : JStr) : JStr :=
  '"' :: escapeString s ++ ['"']

/-- Indentation emitted by JSON.stringify with an indent width of two. -/
def indentOf (depth : Nat) : JStr := List.replicate (2 * depth) ' '

mutual

/-- Modelled from JSON.stringify(value, null, 2) (the call in
Cache.writeCache, cache.ts): strings are quoted and escaped, empty
containers print without inner whitespace, and non-empty containers print
one element per line at two spaces of indentation per depth level. -/
def serializeJson (depth : Nat) : JsonValue → JStr
  | .str s => serializeString s
  | .numLit digits => digits
  | .boolean true => "true".data
  | .boolean false => "false".data
  | .null => "null".data
  | .arr [] => ['[', ']']
  | .arr (v :: rest) =>
    '[' :: '\n' :: serializeItems depth (v :: rest) ++ '\n' :: indentOf depth ++ [']']
  | .obj [] => ['\x7b', '\x7d']
  | .obj (kv :: rest) =>
    '\x7b' :: '\n' :: serializeFields depth (kv :: rest) ++ '\n' :: indentOf depth ++ ['\x7d']

/-- Array elements, one per line, comma separated. -/
def serializeItems (depth : Nat) : List JsonValue → JStr
  | [] => []
  | [v] => indentOf (depth + 1) ++ serializeJson (depth + 1) v
  | v :: rest =>
    indentOf (depth + 1) ++ serializeJson (depth + 1) v ++ ',' :: '\n' :: serializeItems depth rest

/-- Object members, one per line, comma separated, a space after the colon. -/
def serializeFields (depth : Nat) : List (JStr × JsonValue) → JStr
  | [] => []
  | [kv] => indentOf (depth + 1) ++ serializeString kv.1 ++ ':' :: ' ' :: serializeJson (depth + 1) kv.2
  | kv :: rest =>
    indentOf (depth + 1) ++ serializeString kv.1 ++ ':' :: ' ' :: serializeJson (depth + 1) kv.2 ++
      ',' :: '\n' :: serializeFields depth rest

end

/-- Value of a hexadecimal digit character. -/
def parseHexDigit (c : Char) : Option Nat :=
  if '0' ≤ c ∧ c ≤ '9' then some (c.toNat - '0'.toNat)
  else if 'a' ≤ c ∧ c ≤ 'f' then some (c.toNat - 'a'.toNat + 10)
  else if 'A' ≤ c ∧ c ≤ 'F' then some (c.toNat - 'A'.toNat + 10)
  else none

/-- Character denoted by a two-character JSON string escape. -/
def unescapeCode (e : Char) : Option Char :=
  if e = '"' then some '"'
  else if e = '\\' then some '\\'
  else if e = '/' then some '/'
  else if e = 'b' then some '\x08'
  else if e = 'f' then some '\x0c'
  else if e = 'n' then some '\n'
  else if e = 'r' then some '\r'
  else if e = 't' then some '\t'
  else none

/-- Parse the body of a JSON string literal after its opening quote,
returning the decoded string and the input after the closing quote. -/
def parseStringBody : JStr → Option (JStr × JStr)
  | [] => none
  | c :: rest =>
    if c = '"' then some ([], rest)
    else if c = '\\' then
      match rest with
      | [] => none
      | e :: rest2 =>
        if e = 'u' then
          match rest2 with
          | h1 :: h2 :: h3 :: h4 :: rest3 =>
            match parseHexDigit h1, parseHexDigit h2, parseHexDigit h3, parseHexDigit h4 with
            | some a, some b, some c2, some d =>
              (parseStringBody rest3).map fun p =>
                (Char.ofNat (((a * 16 + b) * 16 + c2) * 16 + d) :: p.1, p.2)
            | _, _, _, _ => none
          | _ => none
        else
          match unescapeCode e with
          | some c2 => (parseStringBody rest2).map fun p => (c2 :: p.1, p.2)
          | none => none
    else (parseStringBody rest).map fun p => (c :: p.1, p.2)

/-- Characters a JSON number token is made of. -/
def isNumChar (c : Char) : Bool :=
  ('0' ≤ c && c ≤ '9') || c = '-' || c = '+' || c = '.' || c = 'e' || c = 'E'

/-- Parse a number token, kept as its literal digits. -/
def parseNumberTok (s : JStr) : Option (JsonValue × JStr) :=
  let tok := s.takeWhile isNumChar
  if tok.isEmpty then none else some (.numLit tok, s.dropWhile isNumChar)

mutual

/-- Modelled from JSON.parse (the call in Cache.getCache, cache.ts): a
recursive-descent parser over the fragment of JSON the cache file can
contain, returning the parsed value and the remaining input.  The fuel
argument bounds the recursion and is chosen large enough by jsonParse. -/
def parseValue : Nat → JStr → Option (JsonValue × JStr)
  | 0, _ => none
  | fuel + 1, s =>
    match skipWs s with
    | [] => none
    | c :: rest =>
      if c = '"' then (parseStringBody rest).map fun p => (.str p.1, p.2)
      else if c = '\x7b' then
        match skipWs rest with
        | '\x7d' :: rest2 => some (.obj [], rest2)
        | rest2 => (parseFields fuel rest2).map fun p => (.obj p.1, p.2)
      else if c = '[' then
        match skipWs rest with
        | ']' :: rest2 => some (.arr [], rest2)
        | rest2 => (parseItems fuel rest2).map fun p => (.arr p.1, p.2)
      else if leadsWith (c :: rest) "true".data then some (.boolean true, rest.drop 3)
      else if leadsWith (c :: rest) "false".data then some (.boolean false, rest.drop 4)
      else if leadsWith (c :: rest) "null".data then some (.null, rest.drop 3)
      else parseNumberTok (c :: rest)

/-- One or more object members followed by the closing brace. -/
def parseFields : Nat → JStr → Option (List (JStr × JsonValue) × JStr)
  | 0, _ => none
  | fuel + 1, s =>
    match skipWs s with
    | '"' :: rest =>
      match parseStringBody rest with
      | none => none
      | some (key, rest2) =>
        match skipWs rest2 with
        | ':' :: rest3 =>
          match parseValue fuel rest3 with
          | none => none
          | some (v, rest4) =>
            match skipWs rest4 with
            | ',' :: rest5 => (parseFields fuel rest5).map fun p => ((key, v) :: p.1, p.2)
            | '\x7d' :: rest5 => some ([(key, v)], rest5)
            | _ => none
        | _ => none
    | _ => none

/-- One or more array items followed by the closing bracket. -/
def parseItems : Nat → JStr → Option (List JsonValue × JStr)
  | 0, _ => none
  | fuel + 1, s =>
    match parseValue fuel s with
    | none => none
    | some (v, rest) =>
      match skipWs rest with
      | ',' :: rest2 => (parseItems fuel rest2).map fun p => (v :: p.1, p.2)
      | ']' :: rest2 => some ([v], rest2)
      | _ => none

end

/-- Top-level JSON.parse model: parse one value and require only
whitespace to remain.  The fuel length+1 is enough because every recursive
step first consumes at least one input character. -/
def jsonParse (s : JStr) : Option JsonValue :=
  match parseValue (s.length + 1) s with
  | some (v, rest) => if (skipWs rest).isEmpty then some v else none
  | none => none

/-- JSON form of one persisted cache entry (the object literal built in
checkForUpdates, index.ts lines 182-187): user, name, lastUpdated, and the
tag key exactly when a tag is present. -/
def cacheEntryToJson (e : CacheEntry) : JsonValue :=
  .obj ([("user".data, .str e.user), ("name".data, .str e.name),
         ("lastUpdated".data, .str e.lastUpdated)] ++
    (match e.tag with
     | some t => [("tag".data, .str t)]
     | none => []))

/-- JSON form of the whole cache mapping. -/
def cacheToJson (m : List (JStr × CacheEntry)) : JsonValue :=
  .obj (m.map fun kv => (kv.1, cacheEntryToJson kv.2))

/-- Outcome of reading the backing cache file. -/
inductive ReadOutcome where
  | content (s : JStr)
  | enoent
  | otherError
deriving DecidableEq

/-- Filesystem side effects performed by the Cache class, in order. -/
inductive FsOp where
  | mkdirRecursive
  | writeFileOp (content : JStr)
deriving DecidableEq

/-- The literal empty-object text written when the cache file is absent. -/
def emptyObjectText : JStr := ['\x7b', '\x7d']

/-- Embedding of Cache.getCache (cache.ts): a missing file (ENOENT) creates
the directory and an empty backing file and yields an empty mapping; a
file whose content fails to parse yields an empty mapping after a warning;
any other read error likewise.  The returned JsonValue is the value
JSON.parse produced (the source casts it to CacheData unchecked). -/
def getCache (readResult : ReadOutcome) : JsonValue × List FsOp :=
  match readResult with
  | .content s =>
    match jsonParse s with
    | some v => (v, [])
    | none => (.obj [], [])
  | .enoent => (.obj [], [.mkdirRecursive, .writeFileOp emptyObjectText])
  | .otherError => (.obj [], [])

/-- Embedding of Cache.writeCache (cache.ts): ensure the containing
directory exists, then write JSON.stringify(cache, null, 2). -/
def writeCache (m : List (JStr × CacheEntry)) : List FsOp :=
  [.mkdirRecursive, .writeFileOp (serializeJson 0 (cacheToJson m))]

theorem leadsWith_iff (pat : JStr) : ∀ s : JStr,
    leadsWith s pat = true ↔ pat.length ≤ s.length ∧ s.take pat.length = pat := by
  induction pat with
  | nil => intro s; simp [leadsWith.eq_def]
  | cons b bs ih =>
    intro s
    cases s with
    | nil => simp [leadsWith]
    | cons a as =>
      simp only [leadsWith, Bool.and_eq_true, decide_eq_true_eq, ih as, List.length_cons,
        List.take_succ_cons, List.cons.injEq, Nat.add_le_add_iff_right]
      tauto

theorem jsReplaceFirst_of_none (pat m : JStr) : ∀ s : JStr,
    firstMatchIdx pat s = none → jsReplaceFirst pat m s = s := by
  intro s
  induction s with
  | nil =>
    intro h
    simp only [firstMatchIdx] at h
    split at h
    · exact absurd h (by simp)
    · simp only [jsReplaceFirst]
      rw [if_neg (by assumption)]
  | cons c rest ih =>
    intro h
    simp only [firstMatchIdx] at h
    split at h
    · exact absurd h (by simp)
    · simp only [Option.map_eq_none'] at h
      simp only [jsReplaceFirst]
      rw [if_neg (by assumption), ih h]

theorem jsReplaceFirst_of_some (pat m : JStr) : ∀ (s : JStr) (i : Nat),
    firstMatchIdx pat s = some i →
    jsReplaceFirst pat m s = s.take i ++ m ++ s.drop (i + pat.length) := by
  intro s
  induction s with
  | nil =>
    intro i h
    simp only [firstMatchIdx] at h
    split at h
    · cases h
      have hp : pat.isEmpty = true := by assumption
      simp only [List.isEmpty_iff] at hp
      simp [jsReplaceFirst, hp]
    · cases h
  | cons c rest ih =>
    intro i h
    simp only [firstMatchIdx] at h
    split at h
    · cases h
      simp only [jsReplaceFirst]
      rw [if_pos (by assumption)]
      simp
    · rename_i hlw
      simp only [Option.map_eq_some'] at h
      obtain ⟨i', hi', rfl⟩ := h
      simp only [jsReplaceFirst]
      rw [if_neg hlw, ih i' hi']
      simp only [List.take_succ_cons, List.cons_append]
      congr 2
      have : i' + 1 + pat.length = (i' + pat.length) + 1 := by omega
      rw [this, List.drop_succ_cons]

theorem firstMatchIdx_first (pat : JStr) : ∀ (s : JStr) (i : Nat),
    firstMatchIdx pat s = some i →
    OccursAt pat s i ∧ ∀ j < i, ¬ OccursAt pat s j := by
  intro s
  induction s with
  | nil =>
    intro i h
    simp only [firstMatchIdx] at h
    split at h
    · cases h
      have hp : pat.isEmpty = true := by assumption
      simp only [List.isEmpty_iff] at hp
      subst hp
      exact ⟨⟨rfl, by simp⟩, by omega⟩
    · cases h
  | cons c rest ih =>
    intro i h
    simp only [firstMatchIdx] at h
    split at h
    · cases h
      rename_i hlw
      rw [leadsWith_iff] at hlw
      refine ⟨⟨by simpa using hlw.2, by simpa using hlw.1⟩, by omega⟩
    · rename_i hlw
      simp only [Option.map_eq_some'] at h
      obtain ⟨i', hi', rfl⟩ := h
      obtain ⟨⟨htk, hln⟩, hmin⟩ := ih i' hi'
      refine ⟨⟨by simpa using htk, by simp; omega⟩, ?_⟩
      intro j hj hocc
      match j with
      | 0 =>
        apply absurd _ (fun hh => hlw hh)
        rw [leadsWith_iff]
        obtain ⟨ht, hl⟩ := hocc
        exact ⟨by simpa using hl, by simpa using ht⟩
      | j' + 1 =>
        apply hmin j' (by omega)
        obtain ⟨ht, hl⟩ := hocc
        exact ⟨by simpa using ht, by simp at hl; omega⟩

theorem occursAt_of_firstMatchIdx (pat : JStr) (s : JStr) (i : Nat)
    (h : firstMatchIdx pat s = some i) : i + pat.length ≤ s.length :=
  ((firstMatchIdx_first pat s i h).1).2

/-- C10: for a configured image string with two or more '/' separators only
the first two segments matter: the first becomes the user (namespace), the
second (minus an optional ':tag' suffix) the repository name, and every
later segment is silently discarded, so `p1/p2/tail` parses exactly like
`p1/p2`; a string with no '/' gets the namespace "library". -/
theorem c10_parseImage_drops_extra_segments (p1 p2 tail : JStr)
    (h1 : '/' ∉ p1) (h2 : '/' ∉ p2) :
    parseImageString (p1 ++ '/' :: p2 ++ '/' :: tail) = parseImageString (p1 ++ '/' :: p2)
  ∧ (parseImageString (p1 ++ '/' :: p2 ++ '/' :: tail)).user = p1
  ∧ (∀ s : JStr, '/' ∉ s → (parseImageString s).user = "library".data) := by
  have e1 : splitOnChar '/' (p1 ++ '/' :: (p2 ++ '/' :: tail))
      = p1 :: p2 :: splitOnChar '/' tail := by
    rw [splitOnChar_append '/' p1 _ h1, splitOnChar_append '/' p2 _ h2]
  have e2 : splitOnChar '/' (p1 ++ '/' :: p2) = [p1, p2] := by
    rw [splitOnChar_append '/' p1 _ h1, splitOnChar_no_sep '/' p2 h2]
  refine ⟨?_, ?_, ?_⟩
  · simp [parseImageString, e1, e2]
  · simp [parseImageString, e1]
  · intro s hs
    simp [parseImageString, splitOnChar_no_sep '/' s hs]

/-- Witness for C10 at the concrete image string "a/b/c:t". -/
theorem c10_witness :
    ('/' ∉ "a".data) ∧ ('/' ∉ "b".data) ∧
    parseImageString ("a".data ++ '/' :: "b".data ++ '/' :: "c:t".data)
      = parseImageString ("a".data ++ '/' :: "b".data) :=
  ⟨by decide, by decide,
    (c10_parseImage_drops_extra_segments "a".data "b".data "c:t".data
      (by decide) (by decide)).1⟩

/-- C5: webhook $msg substitution maps every top-level string value of an
object body and every string element of an array body to that string with
the placeholder replaced by the message, leaves non-string values
unchanged, and is the identity on null or absent bodies; in particular the
body (text: "Update: $msg") with message "X" yields (text: "Update: X"),
null stays null, and the array ["a $msg", 3] yields ["a X", 3]. -/
theorem c5_replaceMessagePlaceholders_shape (m : JStr)
    (fields : List (JStr × JsonValue)) (items : List JsonValue) :
    replaceMessagePlaceholders .null m = .null
  ∧ replaceMessagePlaceholders .undef m = .undef
  ∧ replaceMessagePlaceholders (.obj fields) m =
      .obj (fields.map fun kv =>
        match kv.2 with
        | .str s => (kv.1, .str (jsReplaceFirst msgPat m s))
        | other => (kv.1, other))
  ∧ replaceMessagePlaceholders (.arr items) m =
      .arr (items.map fun item =>
        match item with
        | .str s => .str (jsReplaceFirst msgPat m s)
        | other => other)
  ∧ replaceMessagePlaceholders (.obj [("text".data, .str "Update: $msg".data)]) "X".data
      = .obj [("text".data, .str "Update: X".data)]
  ∧ replaceMessagePlaceholders HttpBody.null "X".data = HttpBody.null
  ∧ replaceMessagePlaceholders (.arr [.str "a $msg".data, .numLit "3".data]) "X".data
      = .arr [.str "a X".data, .numLit "3".data] :=
  ⟨rfl, rfl, rfl, rfl, by rfl, rfl, by rfl⟩

/-- C9: substitution replaces only the first occurrence of $msg in a
string: at the first match index i the result is the prefix before i, the
message, and the rest of the string after the occurrence copied verbatim,
so every later occurrence is left unchanged (and reappears, shifted, in
the result); this holds for a string body and for the top-level string
values of object and array bodies. -/
theorem c9_only_first_occurrence_replaced (m s : JStr) (i : Nat)
    (h : firstMatchIdx msgPat s = some i) :
    jsReplaceFirst msgPat m s = s.take i ++ m ++ s.drop (i + msgPat.length)
  ∧ OccursAt msgPat s i
  ∧ (∀ j < i, ¬ OccursAt msgPat s j)
  ∧ (∀ j, i + msgPat.length ≤ j → OccursAt msgPat s j →
      OccursAt msgPat (jsReplaceFirst msgPat m s) (j - msgPat.length + m.length))
  ∧ replaceMessagePlaceholders (.str s) m
      = .str (s.take i ++ m ++ s.drop (i + msgPat.length))
  ∧ (∀ k, replaceMessagePlaceholders (.obj [(k, .str s)]) m
      = .obj [(k, .str (s.take i ++ m ++ s.drop (i + msgPat.length)))])
  ∧ replaceMessagePlaceholders (.arr [.str s]) m
      = .arr [.str (s.take i ++ m ++ s.drop (i + msgPat.length))] := by
  have hrepl := jsReplaceFirst_of_some msgPat m s i h
  obtain ⟨hocc, hmin⟩ := firstMatchIdx_first msgPat s i h
  have hiL : i + msgPat.length ≤ s.length := hocc.2
  refine ⟨hrepl, hocc, hmin, ?_, ?_, ?_, ?_⟩
  · intro j hij hj
    obtain ⟨hjt, hjl⟩ := hj
    rw [hrepl]
    constructor
    · rw [List.append_assoc]
      have harr : j - msgPat.length + m.length
          = (s.take i).length + (m.length + (j - i - msgPat.length)) := by
        rw [List.length_take]
        omega
      rw [harr, List.drop_append, List.drop_append, List.drop_drop]
      rw [show i + msgPat.length + (j - i - msgPat.length) = j from by omega]
      exact hjt
    · simp only [List.length_append, List.length_take, List.length_drop]
      omega
  · simp only [replaceMessagePlaceholders, hrepl]
  · intro k
    simp only [replaceMessagePlaceholders, List.map_cons, List.map_nil, hrepl]
  · simp only [replaceMessagePlaceholders, List.map_cons, List.map_nil, hrepl]

/-- Witness for C9 at a string with two occurrences of the placeholder:
the first occurrence (index 2) is replaced and the second survives
verbatim in the suffix. -/
theorem c9_witness :
    firstMatchIdx msgPat "a $msg b $msg".data = some 2
  ∧ jsReplaceFirst msgPat "X".data "a $msg b $msg".data
      = ("a $msg b $msg".data.take 2 ++ "X".data ++
          "a $msg b $msg".data.drop (2 + msgPat.length)) :=
  ⟨by decide,
    (c9_only_first_occurrence_replaced "X".data "a $msg b $msg".data 2 (by decide)).1⟩

theorem computeUpdated_iff (parseDate : JStr → Option Int) (ce : Option CacheEntry)
    (lu : JStr) :
    computeUpdated parseDate ce lu = true ↔
      ∃ e sv fv, ce = some e ∧ parseDate e.lastUpdated = some sv ∧
        parseDate lu = some fv ∧ sv < fv := by
  constructor
  · intro h
    cases ce with
    | none => simp [computeUpdated] at h
    | some e =>
      simp only [computeUpdated] at h
      cases hs : parseDate e.lastUpdated with
      | none => rw [hs] at h; simp [jsDateLt] at h
      | some sv =>
        cases hf : parseDate lu with
        | none => rw [hs, hf] at h; simp [jsDateLt] at h
        | some fv =>
          rw [hs, hf] at h
          simp only [jsDateLt, decide_eq_true_eq] at h
          exact ⟨e, sv, fv, rfl, hs, rfl, h⟩
  · rintro ⟨e, sv, fv, rfl, hsv, hfv, hlt⟩
    simp [computeUpdated, jsDateLt, hsv, hfv, hlt]

theorem checkRepository_some_eq (env : DockerHubEnv) (parseDate : JStr → Option Int)
    (job : ParsedNotifyService) (ce : Option CacheEntry) (r : RepositoryCheckResult)
    (h : (checkRepository env parseDate job ce).1 = some r) :
    r = mkCheckResult parseDate job ce r.lastUpdated := by
  unfold checkRepository at h
  split at h
  · split at h
    · simp at h
    · split at h
      · simp at h
      · simp only [Option.some.injEq] at h
        subst h
        rfl
  · split at h
    · simp at h
    · simp at h
    · simp only [Option.some.injEq] at h
      subst h
      rfl

/-- C1: for every checked image whose fetch succeeded, the result's updated
flag is true iff a prior cache entry exists, both its stored timestamp and
the freshly fetched timestamp parse as instants, and the fetched instant
is strictly later than the stored one; with no prior entry the flag is
false regardless of the fetched timestamp, and a malformed timestamp on
either side yields false rather than an error. -/
theorem c1_wasUpdated_iff (env : DockerHubEnv) (parseDate : JStr → Option Int)
    (job : ParsedNotifyService) (cacheEntry : Option CacheEntry)
    (r : RepositoryCheckResult)
    (h : (checkRepository env parseDate job cacheEntry).1 = some r) :
    (r.updated = true ↔
      ∃ e sv fv, cacheEntry = some e ∧ parseDate e.lastUpdated = some sv ∧
        parseDate r.lastUpdated = some fv ∧ sv < fv)
  ∧ (cacheEntry = none → r.updated = false) := by
  have hr := checkRepository_some_eq env parseDate job cacheEntry r h
  constructor
  · rw [hr]
    simp only [mkCheckResult]
    exact computeUpdated_iff parseDate cacheEntry r.lastUpdated
  · intro hnone
    rw [hr, hnone]
    rfl

def c1Env : DockerHubEnv :=
  { tagsPage := fun _ _ _ => .networkFailure
    repoResponse := fun _ _ =>
      .success (some { user := "u".data, name := "n".data, last_updated := "B".data }) }

def c1Parse : JStr → Option Int := fun s =>
  if s = "A".data then some 0 else if s = "B".data then some 1 else none

def c1Job : ParsedNotifyService :=
  { image := { user := "u".data, name := "n".data, tag := none }
    actions := []
    originalImage := "u/n".data }

def c1Entry : CacheEntry :=
  { user := "u".data, name := "n".data, lastUpdated := "A".data, tag := none }

/-- Witness for C1: a prior entry parsing to instant 0 and a fetched
timestamp parsing to instant 1 yields an updated result. -/
theorem c1_witness :
    (checkRepository c1Env c1Parse c1Job (some c1Entry)).1
      = some (mkCheckResult c1Parse c1Job (some c1Entry) "B".data)
  ∧ (mkCheckResult c1Parse c1Job (some c1Entry) "B".data).updated = true := by
  have h : (checkRepository c1Env c1Parse c1Job (some c1Entry)).1
      = some (mkCheckResult c1Parse c1Job (some c1Entry) "B".data) := rfl
  refine ⟨h, ?_⟩
  exact (c1_wasUpdated_iff c1Env c1Parse c1Job (some c1Entry) _ h).1.mpr
    ⟨c1Entry, 0, 1, rfl, rfl, rfl, by decide⟩

/-- Claim C4's description of a resolvable action, phrased after the spec:
a handler kind matches the action's type and the named backend instance
(SMTP server or webhook target) is defined in the configuration. -/
def SpecActionResolves (a : Action) (c : Config) : Prop :=
  (a.ty = "mailHook".data ∧
    ∃ m, c.smtpServer = some m ∧ (objLookup m a.instName).isSome = true)
  ∨ (a.ty = "webHook".data ∧
    ∃ m, c.webHooks = some m ∧ (objLookup m a.instName).isSome = true)

instance : Nonempty (List (JStr × SmtpServerConfig)) := ⟨[]⟩

instance : Nonempty (List (JStr × WebhookConfig)) := ⟨[]⟩

theorem validate_one_action_iff (a : Action) (c : Config) :
    (match getHandler a.ty with
     | none => false
     | some handler => validateInstance handler a c) = true
      ↔ SpecActionResolves a c := by
  by_cases h1 : a.ty = "mailHook".data
  · simp only [getHandler, if_pos h1, validateInstance, mailValidateInstance, h1]
    have hne : "mailHook".data ≠ "webHook".data := by decide
    cases hs : c.smtpServer with
    | none => simp [mailValidateInstance, SpecActionResolves, h1, hne, hs]
    | some m => simp [mailValidateInstance, SpecActionResolves, h1, hne, hs]
  · by_cases h2 : a.ty = "webHook".data
    · simp only [getHandler, if_neg h1, if_pos h2, validateInstance,
        webhookValidateInstance, h2]
      cases hw : c.webHooks with
      | none => simp [webhookValidateInstance, SpecActionResolves, h1, h2, hw]
      | some m => simp [webhookValidateInstance, SpecActionResolves, h1, h2, hw]
    · simp [getHandler, if_neg h1, if_neg h2, SpecActionResolves, h1, h2]

/-- C4: validateAllActions accepts a configuration iff every action of
every configured service has a registered handler for its kind and the
named backend instance (SMTP server or webhook target) it references is
defined; any action whose instance name has no matching backend entry
makes it return false. -/
theorem c4_validateAll_iff (c : Config) :
    validateAllActions c = true ↔
      ∀ s ∈ c.notifyServices, ∀ a ∈ s.actions, SpecActionResolves a c := by
  unfold validateAllActions
  simp only [List.all_eq_true]
  constructor
  · intro h s hs a ha
    exact (validate_one_action_iff a c).mp (h s hs a ha)
  · intro h s hs a ha
    exact (validate_one_action_iff a c).mpr (h s hs a ha)

/-- C7: dispatching an action never throws: for an unknown action kind the
dispatcher logs and returns normally, and for the registered mail and
webhook handlers every failure of the external call (missing backend
config, SMTP or HTTP error) is caught inside the handler, so the returned
promise always fulfills and one failed notification cannot abort the
rest of the batch. -/
theorem c7_executeAction_never_throws (action : Action) (updateInfo : UpdateInfo)
    (config : Config) (mailWorld : MailWorld) (webhookWorld : WebhookWorld) :
    (∃ log, executeAction action updateInfo config mailWorld webhookWorld = .ok log)
  ∧ (getHandler action.ty = none →
      executeAction action updateInfo config mailWorld webhookWorld
        = .ok .unknownActionType) := by
  constructor
  · unfold executeAction
    cases hg : getHandler action.ty with
    | none => exact ⟨_, rfl⟩
    | some handler =>
      cases handler with
      | mailHook =>
        unfold mailExecute
        cases config.smtpServer.bind (fun m => objLookup m action.instName) with
        | none => exact ⟨_, rfl⟩
        | some cfg =>
          cases (do
              let _ ← mailWorld.verifyOutcome
              let _ ← mailWorld.sendOutcome
              pure () : Except JsError Unit) with
          | error e => exact ⟨_, rfl⟩
          | ok u => exact ⟨_, rfl⟩
      | webHook =>
        unfold webhookExecute
        cases config.webHooks.bind (fun m => objLookup m action.instName) with
        | none => exact ⟨_, rfl⟩
        | some cfg =>
          cases webhookWorld.gotOutcome with
          | error e => exact ⟨_, rfl⟩
          | ok v => exact ⟨_, rfl⟩
  · intro h
    unfold executeAction
    rw [h]

def c7Action : Action := { ty := "bogus".data, instName := "x".data, recipient := none }

def c7UpdateInfo : UpdateInfo :=
  { imageName := "i".data, imageUrl := "u".data, lastUpdated := "t".data }

def c7Config : Config :=
  { dockerHubUsername := none, dockerHubPassword := none, checkInterval := 60
    notifyServices := [], smtpServer := none, webHooks := none }

def c7MailWorld : MailWorld :=
  { verifyOutcome := .error .requestError, sendOutcome := .error .requestError }

def c7WebhookWorld : WebhookWorld := { gotOutcome := .error (.httpError 500) }

/-- Witness for C7: an action of unregistered kind "bogus" is dispatched
without an error, yielding the unknown-action log. -/
theorem c7_witness :
    getHandler c7Action.ty = none
  ∧ executeAction c7Action c7UpdateInfo c7Config c7MailWorld c7WebhookWorld
      = .ok .unknownActionType :=
  ⟨rfl, (c7_executeAction_never_throws c7Action c7UpdateInfo c7Config c7MailWorld
      c7WebhookWorld).2 rfl⟩

def c6Job : ParsedNotifyService :=
  { image := { user := "u".data, name := "n".data, tag := none }
    actions := []
    originalImage := "u/n".data }

def c6EnvWith (r : HttpResponse (Option RepositoryInfo)) : DockerHubEnv :=
  { tagsPage := fun _ _ _ => .networkFailure
    repoResponse := fun _ _ => r }

def c6Parse : JStr → Option Int := fun _ => none

/-- C6 counterexample: a 404 (not-found) response and a 500 (server error)
response to the repository fetch produce exactly the same observable
outcome of checkRepository, the generic catch path, and never the distinct
repository-not-found branch, so a caller cannot tell the two failure modes
of getRepository apart. -/
theorem c6_counterexample :
    checkRepository (c6EnvWith (.failureStatus 404)) c6Parse c6Job none
      = checkRepository (c6EnvWith (.failureStatus 500)) c6Parse c6Job none
  ∧ (checkRepository (c6EnvWith (.failureStatus 404)) c6Parse c6Job none).2
      = .checkFailed
  ∧ (checkRepository (c6EnvWith (.failureStatus 404)) c6Parse c6Job none).2
      ≠ .repoNotFound :=
  ⟨rfl, rfl, by decide⟩

/-- C6 amended: getRepository does not give "not found" a distinct resolved
signal: a 404 rejects through the same thrown-error channel as transport
and 5xx failures (only the status inside the error differs), checkRepository
handles every thrown error through the same generic catch path, and its
distinct repository-not-found branch fires only when the request resolves
with a null body. -/
theorem c6_amended_no_distinct_not_found (env : DockerHubEnv)
    (parseDate : JStr → Option Int) (job : ParsedNotifyService)
    (ce : Option CacheEntry) :
    (∀ status, getRepository (.failureStatus status) = .error (.httpError status))
  ∧ getRepository .networkFailure = .error .requestError
  ∧ (∀ status, job.image.tag = none →
      env.repoResponse job.image.user job.image.name = .failureStatus status →
      checkRepository env parseDate job ce = (none, .checkFailed))
  ∧ (job.image.tag = none →
      env.repoResponse job.image.user job.image.name = .networkFailure →
      checkRepository env parseDate job ce = (none, .checkFailed))
  ∧ (job.image.tag = none →
      env.repoResponse job.image.user job.image.name = .success none →
      checkRepository env parseDate job ce = (none, .repoNotFound)) := by
  refine ⟨fun _ => rfl, rfl, ?_, ?_, ?_⟩
  · intro status htag hresp
    unfold checkRepository
    rw [htag, hresp]
    rfl
  · intro htag hresp
    unfold checkRepository
    rw [htag, hresp]
    rfl
  · intro htag hresp
    unfold checkRepository
    rw [htag, hresp]
    rfl

/-- Witness for the amended C6 at a concrete 404 environment. -/
theorem c6_amended_witness :
    checkRepository (c6EnvWith (.failureStatus 404)) c6Parse c6Job none
      = (none, .checkFailed)
  ∧ checkRepository (c6EnvWith (.success none)) c6Parse c6Job none
      = (none, .repoNotFound) :=
  ⟨(c6_amended_no_distinct_not_found (c6EnvWith (.failureStatus 404)) c6Parse c6Job
      none).2.2.1 404 rfl rfl,
    (c6_amended_no_distinct_not_found (c6EnvWith (.success none)) c6Parse c6Job
      none).2.2.2.2 rfl rfl⟩

theorem makeRequest_eq_gotJson {α : Type} (r : HttpResponse α) :
    makeRequest r = gotJson r := by
  unfold makeRequest
  cases gotJson r <;> rfl

/-- The tag list contributed by one page response (empty for a failed
page); used only to state C3. -/
def fetchedResults (r : HttpResponse TagsResponse) : List TagInfo :=
  match r with
  | .success t => t.results
  | _ => []

theorem promiseAll_cons_ok {α : Type} (v : α) (l : List (Except JsError α)) :
    promiseAll (.ok v :: l) = (promiseAll l).map (v :: ·) := rfl

theorem promiseAll_cons_error {α : Type} (e : JsError) (l : List (Except JsError α)) :
    promiseAll (.error e :: l) = .error e := rfl

theorem promiseAll_all_ok (f : Nat → HttpResponse TagsResponse) :
    ∀ pages : List Nat, (∀ p ∈ pages, ∃ t, f p = .success t) →
    ∃ subs, promiseAll (pages.map fun page => makeRequest (f page)) = .ok subs
      ∧ subs.map (·.results) = pages.map fun p => fetchedResults (f p) := by
  intro pages
  induction pages with
  | nil => intro _; exact ⟨[], rfl, rfl⟩
  | cons p rest ih =>
    intro h
    obtain ⟨t, ht⟩ := h p (by simp)
    obtain ⟨subs, hsubs, hmap⟩ := ih fun q hq => h q (by simp [hq])
    refine ⟨t :: subs, ?_, ?_⟩
    · have hhead : makeRequest (f p) = .ok t := by
        rw [makeRequest_eq_gotJson, ht]; rfl
      rw [List.map_cons, hhead, promiseAll_cons_ok, hsubs]
      rfl
    · simp [hmap, fetchedResults, ht]

theorem promiseAll_any_fail (f : Nat → HttpResponse TagsResponse) :
    ∀ pages : List Nat, (∃ p ∈ pages, ∀ t, f p ≠ .success t) →
    (promiseAll (pages.map fun page => makeRequest (f page))).isOk = false := by
  intro pages
  induction pages with
  | nil => rintro ⟨p, hp, _⟩; simp at hp
  | cons p rest ih =>
    rintro ⟨q, hq, hfail⟩
    simp only [List.mem_cons] at hq
    rw [List.map_cons]
    cases hfp : f p with
    | success t =>
      rcases hq with rfl | hq
      · exact absurd hfp (hfail t)
      · have hrest := ih ⟨q, hq, hfail⟩
        have hhead : makeRequest (HttpResponse.success t) = .ok t := rfl
        rw [hhead, promiseAll_cons_ok]
        cases hres : promiseAll (rest.map fun page => makeRequest (f page)) with
        | error e => simp [Except.map, Except.isOk, Except.toBool]
        | ok subs =>
          rw [hres] at hrest
          simp [Except.isOk, Except.toBool] at hrest
    | failureStatus st =>
      have hhead : makeRequest (HttpResponse.failureStatus st)
          = (.error (.httpError st) : Except JsError TagsResponse) := rfl
      rw [hhead, promiseAll_cons_error]
      rfl
    | networkFailure =>
      have hhead : makeRequest HttpResponse.networkFailure
          = (.error .requestError : Except JsError TagsResponse) := rfl
      rw [hhead, promiseAll_cons_error]
      rfl

theorem range'_one_eq_cons (n : Nat) (h : 1 ≤ n) :
    List.range' 1 n = 1 :: List.range' 2 (n - 1) := by
  cases n with
  | zero => omega
  | succ k => rw [List.range'_succ]; rfl

/-- C3: requestAllPages issues a first-page request, computes the page
count as ceil(count / 100), and when one page suffices issues exactly one
request; otherwise it issues exactly the pages 1..maxPage (2..maxPage
concurrently), returns all pages' results concatenated in ascending page
order when every page succeeds, and fails wholesale (no partial list) when
any page fails.  With count 150 exactly two page requests are made, with
count 5 exactly one. -/
theorem c3_requestAllPages_pagination (f : Nat → HttpResponse TagsResponse) :
    (∀ e, gotJson (f 1) = .error e → requestAllPages f = ([1], .error e))
  ∧ (∀ first, f 1 = .success first →
      (first.count + (PAGE_SIZE - 1)) / PAGE_SIZE ≤ 1 →
      requestAllPages f = ([1], .ok first.results))
  ∧ (∀ first, f 1 = .success first →
      2 ≤ (first.count + (PAGE_SIZE - 1)) / PAGE_SIZE →
      ((requestAllPages f).1
          = List.range' 1 ((first.count + (PAGE_SIZE - 1)) / PAGE_SIZE))
      ∧ ((∀ p ∈ List.range' 2 ((first.count + (PAGE_SIZE - 1)) / PAGE_SIZE - 1),
            ∃ t, f p = .success t) →
          ((requestAllPages f).2 = .ok (first.results ++
            ((List.range' 2 ((first.count + (PAGE_SIZE - 1)) / PAGE_SIZE - 1)).map
              (fun p => fetchedResults (f p))).flatten)))
      ∧ ((∃ p ∈ List.range' 2 ((first.count + (PAGE_SIZE - 1)) / PAGE_SIZE - 1),
            ∀ t, f p ≠ .success t) →
          (requestAllPages f).2.isOk = false))
  ∧ (∀ first, f 1 = .success first → first.count = 150 →
      (requestAllPages f).1.length = 2)
  ∧ (∀ first, f 1 = .success first → first.count = 5 →
      (requestAllPages f).1.length = 1) := by
  refine ⟨?_, ?_, ?_, ?_, ?_⟩
  · intro e he
    unfold requestAllPages
    rw [makeRequest_eq_gotJson, he]
  · intro first hf hle
    unfold requestAllPages
    rw [makeRequest_eq_gotJson, hf]
    simp only [gotJson]
    rw [if_pos hle]
  · intro first hf hge
    have hbranch : requestAllPages f =
        (1 :: List.range' 2 ((first.count + (PAGE_SIZE - 1)) / PAGE_SIZE - 1),
          match promiseAll ((List.range' 2 ((first.count + (PAGE_SIZE - 1)) / PAGE_SIZE - 1)).map
              fun page => makeRequest (f page)) with
          | .error e => .error e
          | .ok subsequentResults =>
            .ok (((first :: subsequentResults).map (·.results)).flatten)) := by
      unfold requestAllPages
      rw [makeRequest_eq_gotJson, hf]
      simp only [gotJson]
      rw [if_neg (by omega)]
      cases hres : promiseAll ((List.range' 2 ((first.count + (PAGE_SIZE - 1)) / PAGE_SIZE - 1)).map
          fun page => makeRequest (f page)) with
      | error e => rfl
      | ok subs => rfl
    refine ⟨?_, ?_, ?_⟩
    · rw [hbranch, range'_one_eq_cons _ (by omega)]
    · intro hall
      obtain ⟨subs, hsubs, hmap⟩ := promiseAll_all_ok f _ hall
      rw [hbranch]
      simp only [hsubs, List.map_cons, List.flatten_cons]
      rw [hmap]
    · intro hexists
      have hfail := promiseAll_any_fail f _ hexists
      rw [hbranch]
      cases hres : promiseAll ((List.range' 2 ((first.count + (PAGE_SIZE - 1)) / PAGE_SIZE - 1)).map
          fun page => makeRequest (f page)) with
      | error e => simp [Except.isOk, Except.toBool]
      | ok subs => rw [hres] at hfail; simp [Except.isOk, Except.toBool] at hfail
  · intro first hf hcount
    unfold requestAllPages
    rw [makeRequest_eq_gotJson, hf]
    simp only [gotJson]
    rw [hcount]
    rw [if_neg (by decide)]
    cases promiseAll ((List.range' 2 ((150 + (PAGE_SIZE - 1)) / PAGE_SIZE - 1)).map
        fun page => makeRequest (f page)) with
    | error e => simp [PAGE_SIZE]
    | ok subs => simp [PAGE_SIZE]
  · intro first hf hcount
    unfold requestAllPages
    rw [makeRequest_eq_gotJson, hf]
    simp only [gotJson]
    rw [hcount]
    rw [if_pos (by decide)]
    rfl

def c3Tag (p : Nat) : TagInfo := { name := "t".data, last_updated := [Char.ofNat (48 + p)] }

def c3Fetch : Nat → HttpResponse TagsResponse := fun p => .success ⟨150, [c3Tag p]⟩

/-- Witness for C3: a two-page fetch (count 150) issues exactly the two
page requests 1 and 2 and concatenates their results in page order. -/
theorem c3_witness :
    (requestAllPages c3Fetch).1 = [1, 2]
  ∧ (requestAllPages c3Fetch).2 = .ok [c3Tag 1, c3Tag 2]
  ∧ (requestAllPages c3Fetch).1.length = 2 := by
  have h3 := (c3_requestAllPages_pagination c3Fetch).2.2.1 ⟨150, [c3Tag 1]⟩ rfl (by decide)
  have htrace := h3.1
  have hres := h3.2.1 (fun p _ => ⟨⟨150, [c3Tag p]⟩, rfl⟩)
  have hlen := (c3_requestAllPages_pagination c3Fetch).2.2.2.1 ⟨150, [c3Tag 1]⟩ rfl rfl
  refine ⟨?_, ?_, hlen⟩
  · rw [htrace]; rfl
  · rw [hres]; rfl

theorem objInsert_cons_pos {α : Type} (k : JStr) (v0 v : α) (rest : List (JStr × α)) :
    objInsert ((k, v0) :: rest) k v = (k, v) :: rest := if_pos rfl

theorem objInsert_cons_neg {α : Type} (k0 k : JStr) (v0 v : α)
    (rest : List (JStr × α)) (h : ¬ k0 = k) :
    objInsert ((k0, v0) :: rest) k v = (k0, v0) :: objInsert rest k v := if_neg h

theorem objLookup_isSome_iff_mem {α : Type} (m : List (JStr × α)) (k : JStr) :
    (objLookup m k).isSome = true ↔ k ∈ m.map Prod.fst := by
  induction m with
  | nil => simp [objLookup]
  | cons kv rest ih =>
    obtain ⟨k', v⟩ := kv
    by_cases h : k' = k
    · subst h
      rw [show objLookup ((k', v) :: rest) k' = some v from if_pos rfl]
      constructor
      · intro _
        simp only [List.map_cons, List.mem_cons]
        exact Or.inl (by trivial)
      · intro _
        rfl
    · rw [show objLookup ((k', v) :: rest) k = objLookup rest k from if_neg h]
      simp only [List.map_cons, List.mem_cons, ih]
      constructor
      · intro hm; exact Or.inr hm
      · rintro (rfl | hm)
        · exact absurd rfl h
        · exact hm

theorem mem_keys_objInsert {α : Type} (m : List (JStr × α)) (k : JStr) (v : α)
    (k' : JStr) :
    k' ∈ (objInsert m k v).map Prod.fst ↔ k' ∈ m.map Prod.fst ∨ k' = k := by
  induction m with
  | nil =>
    rw [show objInsert ([] : List (JStr × α)) k v = [(k, v)] from rfl]
    simp only [List.map_cons, List.map_nil, List.mem_cons, List.mem_nil_iff,
      or_false, false_or]
  | cons kv rest ih =>
    obtain ⟨k0, v0⟩ := kv
    by_cases h : k0 = k
    · subst h
      rw [objInsert_cons_pos]
      simp only [List.map_cons, List.mem_cons]
      tauto
    · rw [objInsert_cons_neg _ _ _ _ _ h]
      simp only [List.map_cons, List.mem_cons, ih]
      tauto

theorem nodup_keys_objInsert {α : Type} (m : List (JStr × α)) (k : JStr) (v : α)
    (h : (m.map Prod.fst).Nodup) : ((objInsert m k v).map Prod.fst).Nodup := by
  induction m with
  | nil =>
    rw [show objInsert ([] : List (JStr × α)) k v = [(k, v)] from rfl]
    simp
  | cons kv rest ih =>
    obtain ⟨k0, v0⟩ := kv
    simp only [List.map_cons, List.nodup_cons] at h
    by_cases hk : k0 = k
    · subst hk
      rw [objInsert_cons_pos]
      simp only [List.map_cons, List.nodup_cons]
      exact ⟨h.1, h.2⟩
    · rw [objInsert_cons_neg _ _ _ _ _ hk]
      simp only [List.map_cons, List.nodup_cons]
      refine ⟨?_, ih h.2⟩
      rw [mem_keys_objInsert]
      rintro (hm | rfl)
      · exact h.1 hm
      · exact hk rfl

/-- The accumulator step of the new-cache construction in checkForUpdates. -/
def insertResult (m : List (JStr × CacheEntry)) (r : RepositoryCheckResult) :
    List (JStr × CacheEntry) :=
  objInsert m (getCacheKey r.job.image) (entryOfResult r)

theorem nodup_keys_foldl_insertResult (rs : List RepositoryCheckResult) :
    ∀ init : List (JStr × CacheEntry), ((init.map Prod.fst).Nodup) →
    (((rs.foldl insertResult init).map Prod.fst)).Nodup := by
  induction rs with
  | nil => intro init h; simpa using h
  | cons r rest ih =>
    intro init h
    simp only [List.foldl_cons]
    exact ih _ (nodup_keys_objInsert _ _ _ h)

theorem mem_keys_foldl_insertResult (rs : List RepositoryCheckResult) :
    ∀ (init : List (JStr × CacheEntry)) (k : JStr),
    (k ∈ (rs.foldl insertResult init).map Prod.fst ↔
      k ∈ init.map Prod.fst ∨ ∃ r ∈ rs, getCacheKey r.job.image = k) := by
  induction rs with
  | nil =>
    intro init k
    simp only [List.foldl_nil]
    constructor
    · intro h; exact Or.inl h
    · rintro (h | ⟨r, hr, _⟩)
      · exact h
      · exact absurd hr (List.not_mem_nil r)
  | cons r rest ih =>
    intro init k
    simp only [List.foldl_cons, ih, insertResult, mem_keys_objInsert, List.mem_cons]
    constructor
    · rintro ((hm | rfl) | ⟨r', hr', hk⟩)
      · exact Or.inl hm
      · exact Or.inr ⟨r, Or.inl rfl, rfl⟩
      · exact Or.inr ⟨r', Or.inr hr', hk⟩
    · rintro (hm | ⟨r', (rfl | hr'), hk⟩)
      · exact Or.inl (Or.inl hm)
      · exact Or.inl (Or.inr hk.symm)
      · exact Or.inr ⟨r', hr', hk⟩

/-- The timestamp checkRepository would build its result from, independent
of the cache entry: the located tag's last_updated for a tagged image, the
repository's last_updated otherwise, none on any failure. -/
def fetchedLastUpdated (env : DockerHubEnv) (job : ParsedNotifyService) : Option JStr :=
  match job.image.tag with
  | some tag =>
    match (requestAllPages (env.tagsPage job.image.user job.image.name)).2 with
    | .error _ => none
    | .ok tags => (tags.find? (fun t => t.name == tag)).map (·.last_updated)
  | none =>
    match getRepository (env.repoResponse job.image.user job.image.name) with
    | .error _ => none
    | .ok none => none
    | .ok (some repoInfo) => some repoInfo.last_updated

theorem checkRepository_fst_eq (env : DockerHubEnv) (parseDate : JStr → Option Int)
    (job : ParsedNotifyService) (ce : Option CacheEntry) :
    (checkRepository env parseDate job ce).1
      = (fetchedLastUpdated env job).map (mkCheckResult parseDate job ce) := by
  cases htag : job.image.tag with
  | none =>
    cases hr : getRepository (env.repoResponse job.image.user job.image.name) with
    | error e => simp [checkRepository, fetchedLastUpdated, htag, hr]
    | ok o =>
      cases o with
      | none => simp [checkRepository, fetchedLastUpdated, htag, hr]
      | some ri => simp [checkRepository, fetchedLastUpdated, htag, hr]
  | some tag =>
    cases ht : (requestAllPages (env.tagsPage job.image.user job.image.name)).2 with
    | error e => simp [checkRepository, fetchedLastUpdated, htag, ht]
    | ok tags =>
      cases hf : tags.find? (fun t => t.name == tag) with
      | none => simp [checkRepository, fetchedLastUpdated, htag, ht, hf]
      | some ti => simp [checkRepository, fetchedLastUpdated, htag, ht, hf]

/-- The key and cache entry a result contributes to the new cache. -/
def keyEntryOf (r : RepositoryCheckResult) : JStr × CacheEntry :=
  (getCacheKey r.job.image, entryOfResult r)

theorem foldl_insertResult_congr (rs1 : List RepositoryCheckResult) :
    ∀ (rs2 : List RepositoryCheckResult) (init : List (JStr × CacheEntry)),
    rs1.map keyEntryOf = rs2.map keyEntryOf →
    rs1.foldl insertResult init = rs2.foldl insertResult init := by
  induction rs1 with
  | nil =>
    intro rs2 init h
    cases rs2 with
    | nil => rfl
    | cons r rest => simp at h
  | cons r rest ih =>
    intro rs2 init h
    cases rs2 with
    | nil => simp at h
    | cons r2 rest2 =>
      simp only [List.map_cons, List.cons.injEq] at h
      simp only [List.foldl_cons]
      have hins : insertResult init r = insertResult init r2 := by
        unfold insertResult
        have h1 : getCacheKey r.job.image = getCacheKey r2.job.image := congrArg Prod.fst h.1
        have h2 : entryOfResult r = entryOfResult r2 := congrArg Prod.snd h.1
        rw [h1, h2]
      rw [hins]
      exact ih rest2 _ h.2

/-- The valid (non-null) check results of one cycle, in service order. -/
def validResultsOf (env : DockerHubEnv) (parseDate : JStr → Option Int)
    (currentCache : List (JStr × CacheEntry)) (services : List ParsedNotifyService) :
    List RepositoryCheckResult :=
  (services.map fun service =>
    (checkRepository env parseDate service
      (objLookup currentCache (getCacheKey service.image))).1).filterMap id

theorem runCheckCycle_fst_eq (env : DockerHubEnv) (parseDate : JStr → Option Int)
    (currentCache : List (JStr × CacheEntry)) (services : List ParsedNotifyService) :
    (runCheckCycle env parseDate currentCache services).1
      = (validResultsOf env parseDate currentCache services).foldl insertResult [] := rfl

theorem validResultsOf_keyEntry_indep (env : DockerHubEnv)
    (parseDate : JStr → Option Int) (old old2 : List (JStr × CacheEntry)) :
    ∀ services : List ParsedNotifyService,
    (validResultsOf env parseDate old services).map keyEntryOf
      = (validResultsOf env parseDate old2 services).map keyEntryOf := by
  intro services
  induction services with
  | nil => rfl
  | cons s rest ih =>
    unfold validResultsOf at ih ⊢
    simp only [List.map_cons, List.filterMap_cons]
    rw [checkRepository_fst_eq, checkRepository_fst_eq]
    cases hlu : fetchedLastUpdated env s with
    | none => simpa using ih
    | some lu =>
      simp only [Option.map_some', id_eq, List.map_cons]
      rw [show keyEntryOf (mkCheckResult parseDate s
            (objLookup old (getCacheKey s.image)) lu)
          = keyEntryOf (mkCheckResult parseDate s
            (objLookup old2 (getCacheKey s.image)) lu) from rfl]
      exact congrArg _ ih

theorem mem_validResultsOf (env : DockerHubEnv) (parseDate : JStr → Option Int)
    (old : List (JStr × CacheEntry)) (services : List ParsedNotifyService)
    (r : RepositoryCheckResult) :
    r ∈ validResultsOf env parseDate old services ↔
      ∃ s ∈ services,
        (checkRepository env parseDate s (objLookup old (getCacheKey s.image))).1
          = some r := by
  unfold validResultsOf
  simp only [List.mem_filterMap, List.mem_map, id_eq]
  constructor
  · rintro ⟨o, ⟨s, hs, rfl⟩, hor⟩
    exact ⟨s, hs, hor⟩
  · rintro ⟨s, hs, hr⟩
    exact ⟨_, ⟨s, hs, rfl⟩, hr⟩

theorem checkRepository_some_job_image (env : DockerHubEnv)
    (parseDate : JStr → Option Int) (job : ParsedNotifyService)
    (ce : Option CacheEntry) (r : RepositoryCheckResult)
    (h : (checkRepository env parseDate job ce).1 = some r) :
    r.job.image = job.image := by
  rw [checkRepository_fst_eq] at h
  cases hlu : fetchedLastUpdated env job with
  | none => rw [hlu] at h; simp at h
  | some lu =>
    rw [hlu] at h
    simp only [Option.map_some', Option.some.injEq] at h
    subst h
    rfl

/-- C2: after a cycle the persisted map is rebuilt from scratch: its keys
are exactly the cache keys of the services whose fetch succeeded this
cycle (one entry per key, no duplicates), entries of images that failed to
fetch are dropped rather than carried over, and the new map does not
depend on the previous cache contents at all (a full replacement, not a
merge). -/
theorem c2_cache_full_replacement (env : DockerHubEnv)
    (parseDate : JStr → Option Int) (oldCache oldCache2 : List (JStr × CacheEntry))
    (services : List ParsedNotifyService) :
    ((runCheckCycle env parseDate oldCache services).1.map Prod.fst).Nodup
  ∧ (∀ k, (objLookup (runCheckCycle env parseDate oldCache services).1 k).isSome = true
      ↔ ∃ s ∈ services, getCacheKey s.image = k ∧
          ((checkRepository env parseDate s
              (objLookup oldCache (getCacheKey s.image))).1).isSome = true)
  ∧ (runCheckCycle env parseDate oldCache services).1
      = (runCheckCycle env parseDate oldCache2 services).1 := by
  refine ⟨?_, ?_, ?_⟩
  · rw [runCheckCycle_fst_eq]
    exact nodup_keys_foldl_insertResult _ _ (by simp)
  · intro k
    rw [runCheckCycle_fst_eq, objLookup_isSome_iff_mem,
      mem_keys_foldl_insertResult]
    simp only [List.map_nil, List.mem_nil_iff, false_or]
    constructor
    · rintro ⟨r, hr, hk⟩
      obtain ⟨s, hs, hchk⟩ := (mem_validResultsOf env parseDate oldCache services r).mp hr
      refine ⟨s, hs, ?_, by rw [hchk]; rfl⟩
      rw [← hk]
      rw [checkRepository_some_job_image env parseDate s _ r hchk]
    · rintro ⟨s, hs, hk, hsome⟩
      obtain ⟨r, hr⟩ := Option.isSome_iff_exists.mp hsome
      refine ⟨r, (mem_validResultsOf env parseDate oldCache services r).mpr ⟨s, hs, hr⟩, ?_⟩
      rw [checkRepository_some_job_image env parseDate s _ r hr, hk]
  · rw [runCheckCycle_fst_eq, runCheckCycle_fst_eq]
    exact foldl_insertResult_congr _ _ _
      (validResultsOf_keyEntry_indep env parseDate oldCache oldCache2 services)

theorem skipWs_cons_not_ws (c : Char) (s : JStr) (h : isWsChar c = false) :
    skipWs (c :: s) = c :: s := by
  simp [skipWs, h]

theorem skipWs_replicate_space (n : Nat) (x : JStr) :
    skipWs (List.replicate n ' ' ++ x) = skipWs x := by
  induction n with
  | zero => rfl
  | succ k ih =>
    simp only [List.replicate_succ, List.cons_append, skipWs]
    rw [if_pos (by decide)]
    exact ih

theorem skipWs_newline_indent (d : Nat) (x : JStr) :
    skipWs ('\n' :: (indentOf d ++ x)) = skipWs x := by
  simp only [skipWs]
  rw [if_pos (by decide)]
  exact skipWs_replicate_space (2 * d) x

theorem parseHexDigit_hexDigitChar : ∀ n < 16, parseHexDigit (hexDigitChar n) = some n := by
  decide

theorem parseStringBody_quote (rest : JStr) :
    parseStringBody ('"' :: rest) = some ([], rest) := by
  rw [parseStringBody.eq_def]
  simp

theorem parseStringBody_named (e c2 : Char) (rest : JStr)
    (hq : ¬ e = 'u') (hc : unescapeCode e = some c2) :
    parseStringBody ('\\' :: e :: rest)
      = (parseStringBody rest).map fun p => (c2 :: p.1, p.2) := by
  rw [parseStringBody.eq_def]
  simp [hq, hc]

theorem parseStringBody_unicode (h1 h2 h3 h4 : Char) (rest : JStr) :
    parseStringBody ('\\' :: 'u' :: h1 :: h2 :: h3 :: h4 :: rest)
      = (match parseHexDigit h1, parseHexDigit h2, parseHexDigit h3, parseHexDigit h4 with
         | some a, some b, some c2, some d =>
           (parseStringBody rest).map fun p =>
             (Char.ofNat (((a * 16 + b) * 16 + c2) * 16 + d) :: p.1, p.2)
         | _, _, _, _ => none) := by
  rw [parseStringBody.eq_def]
  simp

theorem parseStringBody_plain (c : Char) (rest : JStr) (hq : ¬ c = '"')
    (hb : ¬ c = '\\') :
    parseStringBody (c :: rest) = (parseStringBody rest).map fun p => (c :: p.1, p.2) := by
  rw [parseStringBody.eq_def]
  simp [hq, hb]

theorem parseStringBody_escape : ∀ (s rest : JStr),
    parseStringBody (escapeString s ++ '"' :: rest) = some (s, rest) := by
  intro s
  induction s with
  | nil =>
    intro rest
    rw [show escapeString [] ++ '"' :: rest = '"' :: rest from rfl, parseStringBody_quote]
  | cons c cs ih =>
    intro rest
    simp only [escapeString, List.append_assoc]
    by_cases h1 : c = '"'
    · subst h1
      rw [show escapeChar '"' = ['\\', '"'] from rfl]
      simp only [List.cons_append, List.nil_append]
      rw [parseStringBody_named '"' '"' _ (by decide) (by decide), ih rest]
      rfl
    by_cases h2 : c = '\\'
    · subst h2
      rw [show escapeChar '\\' = ['\\', '\\'] from rfl]
      simp only [List.cons_append, List.nil_append]
      rw [parseStringBody_named '\\' '\\' _ (by decide) (by decide), ih rest]
      rfl
    by_cases h3 : c = '\n'
    · subst h3
      rw [show escapeChar '\n' = ['\\', 'n'] from rfl]
      simp only [List.cons_append, List.nil_append]
      rw [parseStringBody_named 'n' '\n' _ (by decide) (by decide), ih rest]
      rfl
    by_cases h4 : c = '\r'
    · subst h4
      rw [show escapeChar '\r' = ['\\', 'r'] from rfl]
      simp only [List.cons_append, List.nil_append]
      rw [parseStringBody_named 'r' '\r' _ (by decide) (by decide), ih rest]
      rfl
    by_cases h5 : c = '\t'
    · subst h5
      rw [show escapeChar '\t' = ['\\', 't'] from rfl]
      simp only [List.cons_append, List.nil_append]
      rw [parseStringBody_named 't' '\t' _ (by decide) (by decide), ih rest]
      rfl
    by_cases h6 : c = '\x08'
    · subst h6
      rw [show escapeChar '\x08' = ['\\', 'b'] from rfl]
      simp only [List.cons_append, List.nil_append]
      rw [parseStringBody_named 'b' '\x08' _ (by decide) (by decide), ih rest]
      rfl
    by_cases h7 : c = '\x0c'
    · subst h7
      rw [show escapeChar '\x0c' = ['\\', 'f'] from rfl]
      simp only [List.cons_append, List.nil_append]
      rw [parseStringBody_named 'f' '\x0c' _ (by decide) (by decide), ih rest]
      rfl
    by_cases h8 : c.toNat < 32
    · rw [show escapeChar c = '\\' :: 'u' :: '0' :: '0' ::
            hexDigitChar (c.toNat / 16) :: hexDigitChar (c.toNat % 16) :: [] from by
          simp only [escapeChar, if_neg h1, if_neg h2, if_neg h3, if_neg h4, if_neg h5,
            if_neg h6, if_neg h7, if_pos h8]]
      simp only [List.cons_append, List.nil_append]
      rw [parseStringBody_unicode]
      rw [show parseHexDigit '0' = some 0 from rfl,
        parseHexDigit_hexDigitChar (c.toNat / 16) (by omega),
        parseHexDigit_hexDigitChar (c.toNat % 16) (by omega)]
      rw [ih rest]
      simp only [Option.map_some']
      rw [show ((0 * 16 + 0) * 16 + c.toNat / 16) * 16 + c.toNat % 16 = c.toNat from by
        omega]
      rw [Char.ofNat_toNat]
    · rw [show escapeChar c = [c] from by
          simp only [escapeChar, if_neg h1, if_neg h2, if_neg h3, if_neg h4, if_neg h5,
            if_neg h6, if_neg h7, if_neg h8]]
      simp only [List.cons_append, List.nil_append]
      rw [parseStringBody_plain c _ h1 h2, ih rest]
      rfl

theorem serializeString_cons_shape (out rest : JStr) :
    serializeString out ++ rest = '"' :: (escapeString out ++ '"' :: rest) := by
  simp [serializeString]

theorem parseValue_str_of_skip (fuel : Nat) (s rest out : JStr)
    (h : skipWs s = serializeString out ++ rest) :
    parseValue (fuel + 1) s = some (.str out, rest) := by
  rw [serializeString_cons_shape] at h
  rw [parseValue.eq_def]
  simp only [h]
  simp [parseStringBody_escape]

theorem parseFields_step_more (fuel : Nat) (s rest tail : JStr) (key : JStr)
    (v : JsonValue) (X : JStr)
    (hk : skipWs s = serializeString key ++ ':' :: ' ' :: X)
    (hv : parseValue fuel (' ' :: X) = some (v, rest))
    (ht : skipWs rest = ',' :: tail) :
    parseFields (fuel + 1) s
      = (parseFields fuel tail).map fun p => ((key, v) :: p.1, p.2) := by
  rw [serializeString_cons_shape] at hk
  rw [parseFields.eq_def]
  simp only [hk]
  have hcolon : skipWs (':' :: ' ' :: X) = ':' :: ' ' :: X :=
    skipWs_cons_not_ws ':' _ (by decide)
  simp [parseStringBody_escape, hcolon, hv, ht]

theorem parseFields_step_last (fuel : Nat) (s rest tail : JStr) (key : JStr)
    (v : JsonValue) (X : JStr)
    (hk : skipWs s = serializeString key ++ ':' :: ' ' :: X)
    (hv : parseValue fuel (' ' :: X) = some (v, rest))
    (ht : skipWs rest = '\x7d' :: tail) :
    parseFields (fuel + 1) s = some ([(key, v)], tail) := by
  rw [serializeString_cons_shape] at hk
  rw [parseFields.eq_def]
  simp only [hk]
  have hcolon : skipWs (':' :: ' ' :: X) = ':' :: ' ' :: X :=
    skipWs_cons_not_ws ':' _ (by decide)
  simp [parseStringBody_escape, hcolon, hv, ht]

theorem parseValue_obj_of_skip (fuel : Nat) (s body : JStr)
    (res : List (JStr × JsonValue) × JStr)
    (h : skipWs s = '\x7b' :: body)
    (hb : ∀ tail, skipWs body ≠ '\x7d' :: tail)
    (hf : parseFields fuel (skipWs body) = some res) :
    parseValue (fuel + 1) s = some (.obj res.1, res.2) := by
  rw [parseValue.eq_def]
  simp only [h]
  have hred : (match skipWs body with
      | '\x7d' :: rest2 => some ((JsonValue.obj [], rest2) : JsonValue × JStr)
      | rest2 => (parseFields fuel rest2).map fun p => (JsonValue.obj p.1, p.2))
      = (parseFields fuel (skipWs body)).map fun p => (JsonValue.obj p.1, p.2) := by
    split
    · rename_i heq
      exact absurd heq (hb _)
    · rfl
  simp [hred, hf]

theorem serializeJson_str (d : Nat) (v : JStr) :
    serializeJson d (.str v) = serializeString v := by
  rw [serializeJson.eq_def]

theorem serializeJson_obj_nil (d : Nat) :
    serializeJson d (.obj []) = ['\x7b', '\x7d'] := by
  rw [serializeJson.eq_def]

theorem serializeJson_obj_cons (d : Nat) (kv : JStr × JsonValue)
    (rest : List (JStr × JsonValue)) :
    serializeJson d (.obj (kv :: rest))
      = '\x7b' :: '\n' :: serializeFields d (kv :: rest) ++ '\n' :: indentOf d ++ ['\x7d'] := by
  rw [serializeJson.eq_def]

theorem serializeFields_single (d : Nat) (kv : JStr × JsonValue) :
    serializeFields d [kv]
      = indentOf (d + 1) ++ serializeString kv.1 ++ ':' :: ' ' ::
          serializeJson (d + 1) kv.2 := by
  rw [serializeFields.eq_def]

theorem serializeFields_cons (d : Nat) (kv kv2 : JStr × JsonValue)
    (rest : List (JStr × JsonValue)) :
    serializeFields d (kv :: kv2 :: rest)
      = indentOf (d + 1) ++ serializeString kv.1 ++ ':' :: ' ' ::
          serializeJson (d + 1) kv.2 ++ ',' :: '\n' :: serializeFields d (kv2 :: rest) := by
  rw [serializeFields.eq_def]

theorem skipWs_serializeString (v rest : JStr) :
    skipWs (serializeString v ++ rest) = serializeString v ++ rest := by
  rw [serializeString_cons_shape]
  exact skipWs_cons_not_ws '"' _ (by decide)

theorem skipWs_space_cons (x : JStr) : skipWs (' ' :: x) = skipWs x := by
  simp only [skipWs]
  rw [if_pos (by decide)]

theorem parseValue_str_entryfield (fuel : Nat) (v tail : JStr) :
    parseValue (fuel + 1) (' ' :: (serializeString v ++ tail)) = some (.str v, tail) := by
  apply parseValue_str_of_skip
  rw [skipWs_space_cons, skipWs_serializeString]

theorem skipWs_idem (x : JStr) : skipWs (skipWs x) = skipWs x := by
  induction x with
  | nil => rfl
  | cons c rest ih =>
    simp only [skipWs]
    split
    · exact ih
    · rename_i hns
      simp only [skipWs]
      rw [if_neg hns]

/-- Serialized text of one non-final object member of a cache entry (at
entry depth), followed by the rest of the members. -/
def fieldMore (key v : JStr) (next : JStr) : JStr :=
  indentOf 2 ++ (serializeString key ++ ':' :: ' ' :: (serializeString v ++ ',' :: '\n' :: next))

/-- Serialized text of the final object member of a cache entry, followed
by the entry's closing brace and the rest of the input. -/
def fieldLast (key v rest : JStr) : JStr :=
  indentOf 2 ++ (serializeString key ++ ':' :: ' ' ::
    (serializeString v ++ '\n' :: (indentOf 1 ++ '\x7d' :: rest)))

theorem skipWs_newline_fieldMore (k v next : JStr) :
    skipWs ('\n' :: fieldMore k v next)
      = serializeString k ++ ':' :: ' ' :: (serializeString v ++ ',' :: '\n' :: next) := by
  unfold fieldMore
  rw [skipWs_newline_indent, skipWs_serializeString]

theorem skipWs_newline_fieldLast (k v rest : JStr) :
    skipWs ('\n' :: fieldLast k v rest)
      = serializeString k ++ ':' :: ' ' ::
          (serializeString v ++ '\n' :: (indentOf 1 ++ '\x7d' :: rest)) := by
  unfold fieldLast
  rw [skipWs_newline_indent, skipWs_serializeString]

theorem parseFields_fieldMore (g : Nat) (k v next : JStr) :
    parseFields (g + 1 + 1) ('\n' :: fieldMore k v next)
      = (parseFields (g + 1) ('\n' :: next)).map fun p => ((k, JsonValue.str v) :: p.1, p.2) := by
  refine parseFields_step_more (g + 1) _ (',' :: '\n' :: next) ('\n' :: next) k
    (JsonValue.str v) (serializeString v ++ ',' :: '\n' :: next)
    (skipWs_newline_fieldMore k v next) ?_ (skipWs_cons_not_ws ',' _ (by decide))
  exact parseValue_str_entryfield g v _

theorem parseFields_fieldMore_skipped (g : Nat) (k v next : JStr) :
    parseFields (g + 1 + 1) (skipWs ('\n' :: fieldMore k v next))
      = (parseFields (g + 1) ('\n' :: next)).map fun p => ((k, JsonValue.str v) :: p.1, p.2) := by
  refine parseFields_step_more (g + 1) _ (',' :: '\n' :: next) ('\n' :: next) k
    (JsonValue.str v) (serializeString v ++ ',' :: '\n' :: next)
    ?_ ?_ (skipWs_cons_not_ws ',' _ (by decide))
  · rw [skipWs_idem]
    exact skipWs_newline_fieldMore k v next
  · exact parseValue_str_entryfield g v _

theorem parseFields_fieldLast (g : Nat) (k v rest : JStr) :
    parseFields (g + 1 + 1) ('\n' :: fieldLast k v rest)
      = some ([(k, JsonValue.str v)], rest) := by
  refine parseFields_step_last (g + 1) _ ('\n' :: (indentOf 1 ++ '\x7d' :: rest)) rest k
    (JsonValue.str v) (serializeString v ++ '\n' :: (indentOf 1 ++ '\x7d' :: rest))
    (skipWs_newline_fieldLast k v rest) ?_ ?_
  · exact parseValue_str_entryfield g v _
  · rw [skipWs_newline_indent]
    exact skipWs_cons_not_ws '\x7d' _ (by decide)

theorem parseValue_entry (f : Nat) (e : CacheEntry) (s rest : JStr)
    (h : skipWs s = serializeJson 1 (cacheEntryToJson e) ++ rest) :
    parseValue (f + 8) s = some (cacheEntryToJson e, rest) := by
  cases htag : e.tag with
  | none =>
    have hfields : cacheEntryToJson e
        = .obj [("user".data, .str e.user), ("name".data, .str e.name),
            ("lastUpdated".data, .str e.lastUpdated)] := by
      simp [cacheEntryToJson, htag]
    have hshape : serializeJson 1 (cacheEntryToJson e) ++ rest
        = '\x7b' :: '\n' :: fieldMore "user".data e.user
            (fieldMore "name".data e.name
              (fieldLast "lastUpdated".data e.lastUpdated rest)) := by
      rw [hfields, serializeJson_obj_cons, serializeFields_cons, serializeFields_cons,
        serializeFields_single, serializeJson_str, serializeJson_str, serializeJson_str]
      simp only [fieldMore, fieldLast, List.append_assoc, List.cons_append, List.nil_append]
    rw [hshape] at h
    rw [hfields, show f + 8 = (f + 7) + 1 from rfl]
    apply parseValue_obj_of_skip (f + 7) s _
      ([("user".data, JsonValue.str e.user), ("name".data, JsonValue.str e.name),
        ("lastUpdated".data, JsonValue.str e.lastUpdated)], rest) h
    · intro tail
      rw [skipWs_newline_fieldMore, serializeString_cons_shape]
      intro hcontr
      simp at hcontr
    · rw [show f + 7 = (f + 5) + 1 + 1 from rfl, parseFields_fieldMore_skipped,
        show f + 5 + 1 = (f + 4) + 1 + 1 from rfl, parseFields_fieldMore,
        show f + 4 + 1 = (f + 3) + 1 + 1 from rfl, parseFields_fieldLast]
      rfl
  | some t =>
    have hfields : cacheEntryToJson e
        = .obj [("user".data, .str e.user), ("name".data, .str e.name),
            ("lastUpdated".data, .str e.lastUpdated), ("tag".data, .str t)] := by
      simp [cacheEntryToJson, htag]
    have hshape : serializeJson 1 (cacheEntryToJson e) ++ rest
        = '\x7b' :: '\n' :: fieldMore "user".data e.user
            (fieldMore "name".data e.name
              (fieldMore "lastUpdated".data e.lastUpdated
                (fieldLast "tag".data t rest))) := by
      rw [hfields, serializeJson_obj_cons, serializeFields_cons, serializeFields_cons,
        serializeFields_cons, serializeFields_single, serializeJson_str, serializeJson_str,
        serializeJson_str, serializeJson_str]
      simp only [fieldMore, fieldLast, List.append_assoc, List.cons_append, List.nil_append]
    rw [hshape] at h
    rw [hfields, show f + 8 = (f + 7) + 1 from rfl]
    apply parseValue_obj_of_skip (f + 7) s _
      ([("user".data, JsonValue.str e.user), ("name".data, JsonValue.str e.name),
        ("lastUpdated".data, JsonValue.str e.lastUpdated), ("tag".data, JsonValue.str t)],
        rest) h
    · intro tail
      rw [skipWs_newline_fieldMore, serializeString_cons_shape]
      intro hcontr
      simp at hcontr
    · rw [show f + 7 = (f + 5) + 1 + 1 from rfl, parseFields_fieldMore_skipped,
        show f + 5 + 1 = (f + 4) + 1 + 1 from rfl, parseFields_fieldMore,
        show f + 4 + 1 = (f + 3) + 1 + 1 from rfl, parseFields_fieldMore,
        show f + 3 + 1 = (f + 2) + 1 + 1 from rfl, parseFields_fieldLast]
      rfl

theorem serializeJson_entry_cons (e : CacheEntry) :
    ∃ tail, serializeJson 1 (cacheEntryToJson e) = '\x7b' :: tail := by
  cases htag : e.tag with
  | none =>
    rw [show cacheEntryToJson e = .obj [("user".data, .str e.user),
        ("name".data, .str e.name), ("lastUpdated".data, .str e.lastUpdated)] from by
      simp [cacheEntryToJson, htag]]
    rw [serializeJson_obj_cons]
    exact ⟨_, rfl⟩
  | some t =>
    rw [show cacheEntryToJson e = .obj [("user".data, .str e.user),
        ("name".data, .str e.name), ("lastUpdated".data, .str e.lastUpdated),
        ("tag".data, .str t)] from by simp [cacheEntryToJson, htag]]
    rw [serializeJson_obj_cons]
    exact ⟨_, rfl⟩

theorem skipWs_serializeEntry (e : CacheEntry) (X : JStr) :
    skipWs (serializeJson 1 (cacheEntryToJson e) ++ X)
      = serializeJson 1 (cacheEntryToJson e) ++ X := by
  obtain ⟨tail, htail⟩ := serializeJson_entry_cons e
  rw [htail, List.cons_append]
  exact skipWs_cons_not_ws '\x7b' _ (by decide)

/-- Serialized text of one non-final top-level member of the cache object,
followed by the rest of the members. -/
def entryMore (key : JStr) (e : CacheEntry) (next : JStr) : JStr :=
  indentOf 1 ++ (serializeString key ++ ':' :: ' ' ::
    (serializeJson 1 (cacheEntryToJson e) ++ ',' :: '\n' :: next))

/-- Serialized text of the final top-level member of the cache object,
followed by the closing brace and the rest of the input. -/
def entryLast (key : JStr) (e : CacheEntry) (rest : JStr) : JStr :=
  indentOf 1 ++ (serializeString key ++ ':' :: ' ' ::
    (serializeJson 1 (cacheEntryToJson e) ++ '\n' :: (indentOf 0 ++ '\x7d' :: rest)))

theorem skipWs_newline_entryMore (k : JStr) (e : CacheEntry) (next : JStr) :
    skipWs ('\n' :: entryMore k e next)
      = serializeString k ++ ':' :: ' ' ::
          (serializeJson 1 (cacheEntryToJson e) ++ ',' :: '\n' :: next) := by
  unfold entryMore
  rw [skipWs_newline_indent, skipWs_serializeString]

theorem skipWs_newline_entryLast (k : JStr) (e : CacheEntry) (rest : JStr) :
    skipWs ('\n' :: entryLast k e rest)
      = serializeString k ++ ':' :: ' ' ::
          (serializeJson 1 (cacheEntryToJson e) ++ '\n' :: (indentOf 0 ++ '\x7d' :: rest)) := by
  unfold entryLast
  rw [skipWs_newline_indent, skipWs_serializeString]

theorem parseValue_entryvalue (g : Nat) (e : CacheEntry) (tail : JStr) :
    parseValue (g + 8) (' ' :: (serializeJson 1 (cacheEntryToJson e) ++ tail))
      = some (cacheEntryToJson e, tail) := by
  apply parseValue_entry
  rw [skipWs_space_cons, skipWs_serializeEntry]

theorem parseFields_entryMore (g : Nat) (k : JStr) (e : CacheEntry) (next : JStr) :
    parseFields (g + 8 + 1) ('\n' :: entryMore k e next)
      = (parseFields (g + 8) ('\n' :: next)).map
          fun p => ((k, cacheEntryToJson e) :: p.1, p.2) := by
  refine parseFields_step_more (g + 8) _ (',' :: '\n' :: next) ('\n' :: next) k
    (cacheEntryToJson e)
    (serializeJson 1 (cacheEntryToJson e) ++ ',' :: '\n' :: next)
    (skipWs_newline_entryMore k e next) ?_ (skipWs_cons_not_ws ',' _ (by decide))
  exact parseValue_entryvalue g e _

theorem parseFields_entryMore_skipped (g : Nat) (k : JStr) (e : CacheEntry) (next : JStr) :
    parseFields (g + 8 + 1) (skipWs ('\n' :: entryMore k e next))
      = (parseFields (g + 8) ('\n' :: next)).map
          fun p => ((k, cacheEntryToJson e) :: p.1, p.2) := by
  refine parseFields_step_more (g + 8) _ (',' :: '\n' :: next) ('\n' :: next) k
    (cacheEntryToJson e)
    (serializeJson 1 (cacheEntryToJson e) ++ ',' :: '\n' :: next)
    ?_ ?_ (skipWs_cons_not_ws ',' _ (by decide))
  · rw [skipWs_idem]
    exact skipWs_newline_entryMore k e next
  · exact parseValue_entryvalue g e _

theorem parseFields_entryLast (g : Nat) (k : JStr) (e : CacheEntry) (rest : JStr) :
    parseFields (g + 8 + 1) ('\n' :: entryLast k e rest)
      = some ([(k, cacheEntryToJson e)], rest) := by
  refine parseFields_step_last (g + 8) _ ('\n' :: (indentOf 0 ++ '\x7d' :: rest)) rest k
    (cacheEntryToJson e)
    (serializeJson 1 (cacheEntryToJson e) ++ '\n' :: (indentOf 0 ++ '\x7d' :: rest))
    (skipWs_newline_entryLast k e rest) ?_ ?_
  · exact parseValue_entryvalue g e _
  · rw [skipWs_newline_indent]
    exact skipWs_cons_not_ws '\x7d' _ (by decide)

theorem parseFields_entryLast_skipped (g : Nat) (k : JStr) (e : CacheEntry) (rest : JStr) :
    parseFields (g + 8 + 1) (skipWs ('\n' :: entryLast k e rest))
      = some ([(k, cacheEntryToJson e)], rest) := by
  refine parseFields_step_last (g + 8) _ ('\n' :: (indentOf 0 ++ '\x7d' :: rest)) rest k
    (cacheEntryToJson e)
    (serializeJson 1 (cacheEntryToJson e) ++ '\n' :: (indentOf 0 ++ '\x7d' :: rest))
    ?_ ?_ ?_
  · rw [skipWs_idem]
    exact skipWs_newline_entryLast k e rest
  · exact parseValue_entryvalue g e _
  · rw [skipWs_newline_indent]
    exact skipWs_cons_not_ws '\x7d' _ (by decide)

/-- Serialized text of a non-empty run of top-level cache members followed
by the closing brace and the rest of the input. -/
def entriesText : List (JStr × CacheEntry) → JStr → JStr
  | [], rest => rest
  | [(k, e)], rest => entryLast k e rest
  | (k, e) :: tl, rest => entryMore k e (entriesText tl rest)

theorem entriesText_eq : ∀ (tl : List (JStr × CacheEntry)) (k : JStr) (e : CacheEntry)
    (rest : JStr),
    serializeFields 0 (((k, e) :: tl).map fun kv => (kv.1, cacheEntryToJson kv.2)) ++
        '\n' :: (indentOf 0 ++ '\x7d' :: rest)
      = entriesText ((k, e) :: tl) rest := by
  intro tl
  induction tl with
  | nil =>
    intro k e rest
    rw [show ((( (k, e) :: [] : List (JStr × CacheEntry))).map
        fun kv => (kv.1, cacheEntryToJson kv.2)) = [(k, cacheEntryToJson e)] from rfl]
    rw [serializeFields_single,
      show entriesText [(k, e)] rest = entryLast k e rest from rfl]
    unfold entryLast
    simp [List.append_assoc, List.cons_append]
  | cons kv2 tl2 ih =>
    intro k e rest
    obtain ⟨k2, e2⟩ := kv2
    simp only [List.map_cons]
    rw [serializeFields_cons]
    have ih2 := ih k2 e2 rest
    simp only [List.map_cons] at ih2
    rw [show entriesText ((k, e) :: (k2, e2) :: tl2) rest
        = entryMore k e (entriesText ((k2, e2) :: tl2) rest) from rfl]
    rw [← ih2]
    unfold entryMore
    simp [List.append_assoc, List.cons_append]

theorem parseFields_entriesText : ∀ (m : List (JStr × CacheEntry)) (k : JStr)
    (e : CacheEntry) (rest : JStr) (f : Nat),
    parseFields (f + 9 * (m.length + 1)) ('\n' :: entriesText ((k, e) :: m) rest)
      = some (((k, e) :: m).map (fun kv => (kv.1, cacheEntryToJson kv.2)), rest) := by
  intro m
  induction m with
  | nil =>
    intro k e rest f
    rw [show entriesText [(k, e)] rest = entryLast k e rest from rfl,
      show f + 9 * (([] : List (JStr × CacheEntry)).length + 1) = (f + 0) + 8 + 1 from by
        simp, parseFields_entryLast]
    rfl
  | cons kv2 tl2 ih =>
    intro k e rest f
    obtain ⟨k2, e2⟩ := kv2
    rw [show entriesText ((k, e) :: (k2, e2) :: tl2) rest
        = entryMore k e (entriesText ((k2, e2) :: tl2) rest) from rfl]
    rw [show f + 9 * (((k2, e2) :: tl2).length + 1)
        = (f + 9 * tl2.length + 9) + 8 + 1 from by
      simp only [List.length_cons]
      omega]
    rw [parseFields_entryMore]
    rw [show f + 9 * tl2.length + 9 + 8 = (f + 8) + 9 * (tl2.length + 1) from by omega]
    rw [ih k2 e2 rest (f + 8)]
    rfl

theorem parseFields_entriesText_skipped (m : List (JStr × CacheEntry)) (k : JStr)
    (e : CacheEntry) (rest : JStr) (f : Nat) :
    parseFields (f + 9 * (m.length + 1)) (skipWs ('\n' :: entriesText ((k, e) :: m) rest))
      = some (((k, e) :: m).map (fun kv => (kv.1, cacheEntryToJson kv.2)), rest) := by
  cases m with
  | nil =>
    rw [show entriesText [(k, e)] rest = entryLast k e rest from rfl,
      show f + 9 * (([] : List (JStr × CacheEntry)).length + 1) = (f + 0) + 8 + 1 from by
        simp, parseFields_entryLast_skipped]
    rfl
  | cons kv2 tl2 =>
    obtain ⟨k2, e2⟩ := kv2
    rw [show entriesText ((k, e) :: (k2, e2) :: tl2) rest
        = entryMore k e (entriesText ((k2, e2) :: tl2) rest) from rfl]
    rw [show f + 9 * (((k2, e2) :: tl2).length + 1)
        = (f + 9 * tl2.length + 9) + 8 + 1 from by
      simp only [List.length_cons]
      omega]
    rw [parseFields_entryMore_skipped]
    rw [show f + 9 * tl2.length + 9 + 8 = (f + 8) + 9 * (tl2.length + 1) from by omega]
    rw [parseFields_entriesText tl2 k2 e2 rest (f + 8)]
    rfl

theorem serializeString_length_ge (s : JStr) : 2 ≤ (serializeString s).length := by
  simp only [serializeString, List.length_cons, List.length_append]
  omega

theorem serializeEntry_length_ge (e : CacheEntry) :
    1 ≤ (serializeJson 1 (cacheEntryToJson e)).length := by
  obtain ⟨tail, htail⟩ := serializeJson_entry_cons e
  rw [htail]
  simp

theorem indentOf_length (d : Nat) : (indentOf d).length = 2 * d := by
  simp [indentOf]

theorem serializeFields_cache_length : ∀ (tl : List (JStr × CacheEntry)) (k : JStr)
    (e : CacheEntry),
    9 * tl.length + 7 ≤
      (serializeFields 0 (((k, e) :: tl).map fun kv => (kv.1, cacheEntryToJson kv.2))).length := by
  intro tl
  induction tl with
  | nil =>
    intro k e
    simp only [List.map_cons, List.map_nil, List.length_nil]
    rw [serializeFields_single]
    have h1 := serializeString_length_ge k
    have h2 := serializeEntry_length_ge e
    simp only [List.length_append, List.length_cons, indentOf_length, Nat.zero_add]
    omega
  | cons kv2 tl2 ih =>
    intro k e
    obtain ⟨k2, e2⟩ := kv2
    simp only [List.map_cons, List.length_cons]
    rw [serializeFields_cons]
    have h1 := serializeString_length_ge k
    have h2 := serializeEntry_length_ge e
    have ih2 := ih k2 e2
    simp only [List.map_cons, List.length_cons] at ih2
    simp only [List.length_append, List.length_cons, indentOf_length, Nat.zero_add]
    omega

theorem entriesText_head_quote (m : List (JStr × CacheEntry)) (k : JStr) (e : CacheEntry)
    (rest : JStr) :
    ∃ t, skipWs ('\n' :: entriesText ((k, e) :: m) rest) = '"' :: t := by
  cases m with
  | nil =>
    rw [show entriesText [(k, e)] rest = entryLast k e rest from rfl,
      skipWs_newline_entryLast, serializeString_cons_shape]
    exact ⟨_, rfl⟩
  | cons kv2 tl2 =>
    rw [show entriesText ((k, e) :: kv2 :: tl2) rest
        = entryMore k e (entriesText (kv2 :: tl2) rest) from by
      obtain ⟨k2, e2⟩ := kv2
      rfl]
    rw [skipWs_newline_entryMore, serializeString_cons_shape]
    exact ⟨_, rfl⟩

theorem jsonParse_serialize_cache (m : List (JStr × CacheEntry)) :
    jsonParse (serializeJson 0 (cacheToJson m)) = some (cacheToJson m) := by
  cases m with
  | nil =>
    rw [show cacheToJson [] = .obj [] from rfl, serializeJson_obj_nil]
    rfl
  | cons kv tl =>
    obtain ⟨k, e⟩ := kv
    have hshape : serializeJson 0 (cacheToJson ((k, e) :: tl))
        = '\x7b' :: '\n' :: entriesText ((k, e) :: tl) [] := by
      rw [show cacheToJson ((k, e) :: tl)
          = .obj (((k, e) :: tl).map fun kv => (kv.1, cacheEntryToJson kv.2)) from rfl]
      simp only [List.map_cons]
      rw [serializeJson_obj_cons]
      have he := entriesText_eq tl k e []
      simp only [List.map_cons] at he
      rw [← he]
      simp only [List.append_assoc, List.cons_append]
    have hLB : 9 * (tl.length + 1) ≤ (serializeJson 0 (cacheToJson ((k, e) :: tl))).length := by
      rw [show cacheToJson ((k, e) :: tl)
          = .obj (((k, e) :: tl).map fun kv => (kv.1, cacheEntryToJson kv.2)) from rfl]
      simp only [List.map_cons]
      rw [serializeJson_obj_cons]
      have hf := serializeFields_cache_length tl k e
      simp only [List.map_cons] at hf
      simp only [List.length_cons, List.length_append, indentOf_length]
      omega
    have hpv : parseValue ((serializeJson 0 (cacheToJson ((k, e) :: tl))).length + 1)
        (serializeJson 0 (cacheToJson ((k, e) :: tl)))
        = some (cacheToJson ((k, e) :: tl), []) := by
      rw [show (serializeJson 0 (cacheToJson ((k, e) :: tl))).length + 1
          = ((serializeJson 0 (cacheToJson ((k, e) :: tl))).length) + 1 from rfl]
      conv_lhs =>
        rw [hshape]
      apply parseValue_obj_of_skip _ _ ('\n' :: entriesText ((k, e) :: tl) [])
        (((k, e) :: tl).map (fun kv => (kv.1, cacheEntryToJson kv.2)), [])
      · exact skipWs_cons_not_ws '\x7b' _ (by decide)
      · intro tail hcontr
        obtain ⟨t, ht⟩ := entriesText_head_quote tl k e []
        rw [ht] at hcontr
        simp at hcontr
      · rw [hshape] at hLB
        rw [show ('\x7b' :: '\n' :: entriesText ((k, e) :: tl) []).length
            = (('\x7b' :: '\n' :: entriesText ((k, e) :: tl) []).length
                - 9 * (tl.length + 1)) + 9 * (tl.length + 1) from by omega]
        exact parseFields_entriesText_skipped tl k e [] _
    unfold jsonParse
    rw [hpv]
    rw [show cacheToJson ((k, e) :: tl)
        = .obj (((k, e) :: tl).map fun kv => (kv.1, cacheEntryToJson kv.2)) from rfl]
    rfl

/-- C8: the cache load is tolerant and the save writes valid JSON: a
missing backing file yields an empty mapping and creates an empty backing
file (itself valid JSON parsing to the empty object), content that fails
to parse as JSON yields an empty mapping rather than an error, any other
read error likewise, and writeCache first ensures the directory exists
and then writes the serialized mapping, which parses back to exactly the
mapping that was written. -/
theorem c8_cache_tolerant_load_valid_save (s : JStr) (m : List (JStr × CacheEntry)) :
    (getCache .enoent = (.obj [], [.mkdirRecursive, .writeFileOp emptyObjectText])
      ∧ jsonParse emptyObjectText = some (.obj []))
  ∧ (jsonParse s = none → getCache (.content s) = (.obj [], []))
  ∧ getCache .otherError = (.obj [], [])
  ∧ (writeCache m = [.mkdirRecursive, .writeFileOp (serializeJson 0 (cacheToJson m))]
      ∧ jsonParse (serializeJson 0 (cacheToJson m)) = some (cacheToJson m)) := by
  refine ⟨⟨rfl, rfl⟩, ?_, rfl, rfl, jsonParse_serialize_cache m⟩
  intro h
  simp only [getCache]
  rw [h]

def c8Entry : CacheEntry :=
  { user := "library".data, name := "nginx".data
    lastUpdated := "2024-01-01T00:00:00Z".data, tag := none }

/-- Witness for C8: a concrete corrupt content string loads as the empty
mapping, and a concrete one-entry mapping round-trips through the
serializer and parser. -/
theorem c8_witness :
    jsonParse "invalid json -".data = none
  ∧ getCache (.content "invalid json -".data) = (.obj [], [])
  ∧ jsonParse (serializeJson 0 (cacheToJson [("library/nginx".data, c8Entry)]))
      = some (cacheToJson [("library/nginx".data, c8Entry)]) := by
  have h := c8_cache_tolerant_load_valid_save "invalid json -".data
    [("library/nginx".data, c8Entry)]
  have hn : jsonParse "invalid json -".data = none := rfl
  exact ⟨hn, h.2.1 hn, h.2.2.2.2⟩

end DockerNotify
